import Mathlib

/-!
Verification of the client-side encryption subsystem of the Reflections
journaling app (src/lib/encryption/crypto.ts and src/lib/encryption/keyStorage.ts).

The repository code is a thin, carefully-ordered wrapper around platform
facilities: Web Crypto AES-256-GCM, the btoa/atob base64 codec, TextEncoder /
TextDecoder (UTF-8), JSON.stringify/JSON.parse and window.localStorage.  The
wrapper logic (slot naming, truthiness checks, error collapsing, field
rewriting, write ordering) is embedded here faithfully from the source.  The
platform facilities themselves are not repository code; they are modelled as
follows, each with a doc comment at its definition:

* btoa/atob: implemented exactly per the WHATWG forgiving-base64 spec
  (whitespace stripping, padding handling, dangling bits discarded; btoa
  rejects code points above U+00FF).
* TextEncoder/TextDecoder: real UTF-8 over Unicode scalar values; invalid
  byte sequences decode to U+FFFD (coarsely, which no claim exercises).
* AES-256-GCM: an ideal authenticated cipher. The keystream masking is a
  concrete placeholder PRF (faithful in interface: length preserving,
  involutive with the same key/iv); the 16-byte authentication tag is
  abstract: it binds exactly the key, iv and ciphertext body that produced
  it, which is the standard symbolic idealisation of GCM authenticity.
* JSON: a codec restricted to the two object shapes this module ever
  stores (KeyMetadata and the backup bundle), with real string escaping
  and real decimal number rendering, as produced by JSON.stringify in the
  source.
-/

namespace Reflections

/-! ## Base64: model of the platform btoa/atob pair.

Modelled from the platform (not repository code): WHATWG forgiving-base64.
Encoding uses the standard alphabet with padding; decoding first removes
ASCII whitespace, then up to two trailing padding chars when the length is a
multiple of four, fails on length ≡ 1 (mod 4) or on characters outside the
alphabet, and discards dangling bits. -/

def b64chars : List Char :=
  ("ABCDEFGHIJKLMNOPQRSTUVWXYZabcdefghijklmnopqrstuvwxyz0123456789+/").data

def b64ch (i : Nat) : Char := b64chars.getD i 'A'

def b64Index (c : Char) : Option Nat := b64chars.findIdx? (· = c)

/-- ASCII whitespace characters stripped by forgiving-base64 decode. -/
def isB64Ws (c : Char) : Bool :=
  c = '\t' || c = '\n' || c = '\x0c' || c = '\r' || c = ' '

/-- Base64-encode a byte list (the binary-string-plus-btoa composition the
source implements in arrayBufferToBase64). -/
def b64encodeNums : List Nat → List Char
  | [] => []
  | [b1] => [b64ch (b1 / 4), b64ch (b1 % 4 * 16), '=', '=']
  | [b1, b2] => [b64ch (b1 / 4), b64ch (b1 % 4 * 16 + b2 / 16), b64ch (b2 % 16 * 4), '=']
  | b1 :: b2 :: b3 :: rest =>
      b64ch (b1 / 4) :: b64ch (b1 % 4 * 16 + b2 / 16) ::
      b64ch (b2 % 16 * 4 + b3 / 64) :: b64ch (b3 % 64) :: b64encodeNums rest

/-- The unpadded base64 character run for a byte list (what remains after the
decoder strips padding from a canonical encoding). -/
def b64body : List Nat → List Char
  | [] => []
  | [b1] => [b64ch (b1 / 4), b64ch (b1 % 4 * 16)]
  | [b1, b2] => [b64ch (b1 / 4), b64ch (b1 % 4 * 16 + b2 / 16), b64ch (b2 % 16 * 4)]
  | b1 :: b2 :: b3 :: rest =>
      b64ch (b1 / 4) :: b64ch (b1 % 4 * 16 + b2 / 16) ::
      b64ch (b2 % 16 * 4 + b3 / 64) :: b64ch (b3 % 64) :: b64body rest

/-- Six-bit index run corresponding to b64body. -/
def bodyIdx : List Nat → List Nat
  | [] => []
  | [b1] => [b1 / 4, b1 % 4 * 16]
  | [b1, b2] => [b1 / 4, b1 % 4 * 16 + b2 / 16, b2 % 16 * 4]
  | b1 :: b2 :: b3 :: rest =>
      b1 / 4 :: (b1 % 4 * 16 + b2 / 16) :: (b2 % 16 * 4 + b3 / 64) :: b3 % 64 :: bodyIdx rest

/-- Reassemble bytes from six-bit indices, discarding dangling bits exactly as
forgiving-base64 does. -/
def b64decodeIdx : List Nat → List Nat
  | a :: b :: c :: d :: rest =>
      (a * 4 + b / 16) :: (b % 16 * 16 + c / 4) :: (c % 4 * 64 + d) :: b64decodeIdx rest
  | [a, b] => [a * 4 + b / 16]
  | [a, b, c] => [a * 4 + b / 16, b % 16 * 16 + c / 4]
  | _ => []

/-- Remove up to two trailing padding chars, given the input reversed. -/
def unpadRev (l : List Char) : List Char :=
  match l with
  | [] => []
  | [c1] => if c1 = '=' then [] else [c1]
  | c1 :: c2 :: rest =>
      if c1 = '=' then (if c2 = '=' then rest else c2 :: rest) else c1 :: c2 :: rest

/-- Padding removal step of forgiving-base64 decode. -/
def stripPad (cs : List Char) : List Char :=
  if cs.length % 4 = 0 then (unpadRev cs.reverse).reverse else cs

/-- Look up every character in the base64 alphabet, failing on any
non-alphabet character (including leftover padding). -/
def lookupIdxs : List Char → Option (List Nat)
  | [] => some []
  | c :: rest =>
    match b64Index c with
    | none => none
    | some i =>
      match lookupIdxs rest with
      | none => none
      | some is => some (i :: is)

/-- Forgiving-base64 decode over a character list. -/
def atobCore (s : List Char) : Option (List Nat) :=
  if (stripPad (s.filter (fun c => !(isB64Ws c)))).length % 4 = 1 then none
  else match lookupIdxs (stripPad (s.filter (fun c => !(isB64Ws c)))) with
    | none => none
    | some idxs => some (b64decodeIdx idxs)

theorem b64ch_ne_pad (i : Nat) : b64ch i ≠ '=' := by
  by_cases h : i < 64
  · revert h
    have hh : ∀ j, j < 64 → b64ch j ≠ '=' := by decide
    exact hh i
  · have hlen : b64chars.length ≤ i := by
      have h64 : b64chars.length = 64 := by decide
      omega
    unfold b64ch
    rw [List.getD_eq_default _ _ hlen]
    decide

theorem b64ch_not_ws (i : Nat) : isB64Ws (b64ch i) = false := by
  by_cases h : i < 64
  · revert h
    have hh : ∀ j, j < 64 → isB64Ws (b64ch j) = false := by decide
    exact hh i
  · have hlen : b64chars.length ≤ i := by
      have h64 : b64chars.length = 64 := by decide
      omega
    unfold b64ch
    rw [List.getD_eq_default _ _ hlen]
    decide

theorem b64Index_b64ch {i : Nat} (h : i < 64) : b64Index (b64ch i) = some i := by
  revert h
  have : ∀ j, j < 64 → b64Index (b64ch j) = some j := by decide
  exact this i

/-- Every character of a canonical encoding is an alphabet char or padding. -/
theorem mem_b64encodeNums (bs : List Nat) :
    ∀ c ∈ b64encodeNums bs, c = '=' ∨ ∃ i, c = b64ch i := by
  induction bs using b64encodeNums.induct with
  | case1 => intro c hc; simp [b64encodeNums] at hc
  | case2 b1 =>
    intro c hc
    simp only [b64encodeNums, List.mem_cons, List.not_mem_nil, or_false] at hc
    rcases hc with h | h | h | h
    · exact Or.inr ⟨_, h⟩
    · exact Or.inr ⟨_, h⟩
    · exact Or.inl h
    · exact Or.inl h
  | case3 b1 b2 =>
    intro c hc
    simp only [b64encodeNums, List.mem_cons, List.not_mem_nil, or_false] at hc
    rcases hc with h | h | h | h
    · exact Or.inr ⟨_, h⟩
    · exact Or.inr ⟨_, h⟩
    · exact Or.inr ⟨_, h⟩
    · exact Or.inl h
  | case4 b1 b2 b3 rest ih =>
    intro c hc
    simp only [b64encodeNums, List.mem_cons] at hc
    rcases hc with h | h | h | h | h
    · exact Or.inr ⟨_, h⟩
    · exact Or.inr ⟨_, h⟩
    · exact Or.inr ⟨_, h⟩
    · exact Or.inr ⟨_, h⟩
    · exact ih c h

/-- Whitespace filtering leaves a canonical encoding unchanged. -/
theorem filter_b64encodeNums (bs : List Nat) :
    (b64encodeNums bs).filter (fun c => !(isB64Ws c)) = b64encodeNums bs := by
  apply List.filter_eq_self.mpr
  intro c hc
  rcases mem_b64encodeNums bs c hc with h | ⟨i, h⟩
  · subst h; decide
  · subst h; simp [b64ch_not_ws]

theorem length_b64encodeNums (bs : List Nat) : (b64encodeNums bs).length % 4 = 0 := by
  induction bs using b64encodeNums.induct with
  | case1 => simp [b64encodeNums]
  | case2 b1 => simp [b64encodeNums]
  | case3 b1 b2 => simp [b64encodeNums]
  | case4 b1 b2 b3 rest ih =>
    simp only [b64encodeNums, List.length_cons]
    omega

theorem unpadRev_append (a b : List Char) (h : 2 ≤ a.length) :
    unpadRev (a ++ b) = unpadRev a ++ b := by
  match a with
  | [] => simp at h
  | [c1] => simp at h
  | c1 :: c2 :: rest =>
    simp only [List.cons_append, unpadRev]
    by_cases h1 : c1 = '='
    · by_cases h2 : c2 = '=' <;> simp [h1, h2]
    · simp [h1]

/-- Padding stripping recovers the unpadded body of a canonical encoding. -/
theorem stripPad_b64encodeNums (bs : List Nat) :
    stripPad (b64encodeNums bs) = b64body bs := by
  induction bs using b64encodeNums.induct with
  | case1 => simp [b64encodeNums, b64body, stripPad, unpadRev]
  | case2 b1 =>
    simp [b64encodeNums, b64body, stripPad, unpadRev]
  | case3 b1 b2 =>
    simp [b64encodeNums, b64body, stripPad, unpadRev, b64ch_ne_pad]
  | case4 b1 b2 b3 rest ih =>
    match hr : rest with
    | [] => simp [b64encodeNums, b64body, stripPad, unpadRev, b64ch_ne_pad]
    | r1 :: rtail =>
      have hlen4 : (b64encodeNums (r1 :: rtail)).length % 4 = 0 :=
        length_b64encodeNums _
      have hlenpos : 2 ≤ (b64encodeNums (r1 :: rtail)).length := by
        match rtail with
        | [] => simp [b64encodeNums]
        | [x] => simp [b64encodeNums]
        | x :: y :: z => simp [b64encodeNums]
      have hlenrev : 2 ≤ (b64encodeNums (r1 :: rtail)).reverse.length := by
        simpa using hlenpos
      have hstrip := ih
      simp only [stripPad, hlen4, if_pos] at hstrip
      simp only [b64encodeNums, b64body, stripPad]
      have hL : ((b64ch (b1 / 4) :: b64ch (b1 % 4 * 16 + b2 / 16) ::
          b64ch (b2 % 16 * 4 + b3 / 64) :: b64ch (b3 % 64) ::
          b64encodeNums (r1 :: rtail)).length) % 4 = 0 := by
        simp; omega
      rw [if_pos hL]
      have hrev : (b64ch (b1 / 4) :: b64ch (b1 % 4 * 16 + b2 / 16) ::
          b64ch (b2 % 16 * 4 + b3 / 64) :: b64ch (b3 % 64) ::
          b64encodeNums (r1 :: rtail)).reverse
          = (b64encodeNums (r1 :: rtail)).reverse ++
            [b64ch (b3 % 64), b64ch (b2 % 16 * 4 + b3 / 64),
             b64ch (b1 % 4 * 16 + b2 / 16), b64ch (b1 / 4)] := by
        simp
      rw [hrev, unpadRev_append _ _ hlenrev]
      simp only [List.reverse_append, List.reverse_cons, List.reverse_nil]
      rw [hstrip]
      simp

/-- Mapping the alphabet lookup over an unpadded body yields the index run. -/
theorem lookupIdxs_b64body (bs : List Nat) (h : ∀ x ∈ bs, x < 256) :
    lookupIdxs (b64body bs) = some (bodyIdx bs) := by
  induction bs using b64body.induct with
  | case1 => simp [b64body, bodyIdx, lookupIdxs]
  | case2 b1 =>
    have hb1 : b1 < 256 := h b1 (by simp)
    have h1 : b1 / 4 < 64 := by omega
    have h2 : b1 % 4 * 16 < 64 := by omega
    simp [b64body, bodyIdx, lookupIdxs, b64Index_b64ch h1, b64Index_b64ch h2]
  | case3 b1 b2 =>
    have hb1 : b1 < 256 := h b1 (by simp)
    have hb2 : b2 < 256 := h b2 (by simp)
    have h1 : b1 / 4 < 64 := by omega
    have h2 : b1 % 4 * 16 + b2 / 16 < 64 := by omega
    have h3 : b2 % 16 * 4 < 64 := by omega
    simp [b64body, bodyIdx, lookupIdxs,
      b64Index_b64ch h1, b64Index_b64ch h2, b64Index_b64ch h3]
  | case4 b1 b2 b3 rest ih =>
    have hb1 : b1 < 256 := h b1 (by simp)
    have hb2 : b2 < 256 := h b2 (by simp)
    have hb3 : b3 < 256 := h b3 (by simp)
    have h1 : b1 / 4 < 64 := by omega
    have h2 : b1 % 4 * 16 + b2 / 16 < 64 := by omega
    have h3 : b2 % 16 * 4 + b3 / 64 < 64 := by omega
    have h4 : b3 % 64 < 64 := by omega
    have hrest : ∀ x ∈ rest, x < 256 := by
      intro x hx; exact h x (by simp [hx])
    simp [b64body, bodyIdx, lookupIdxs,
      b64Index_b64ch h1, b64Index_b64ch h2, b64Index_b64ch h3, b64Index_b64ch h4,
      ih hrest]

/-- Six-bit reassembly inverts the byte split. -/
theorem b64decodeIdx_bodyIdx (bs : List Nat) (h : ∀ x ∈ bs, x < 256) :
    b64decodeIdx (bodyIdx bs) = bs := by
  induction bs using b64body.induct with
  | case1 => simp [bodyIdx, b64decodeIdx]
  | case2 b1 =>
    have hb1 : b1 < 256 := h b1 (by simp)
    simp [bodyIdx, b64decodeIdx]
    omega
  | case3 b1 b2 =>
    have hb1 : b1 < 256 := h b1 (by simp)
    have hb2 : b2 < 256 := h b2 (by simp)
    simp [bodyIdx, b64decodeIdx]
    constructor <;> omega
  | case4 b1 b2 b3 rest ih =>
    have hb1 : b1 < 256 := h b1 (by simp)
    have hb2 : b2 < 256 := h b2 (by simp)
    have hb3 : b3 < 256 := h b3 (by simp)
    have hrest : ∀ x ∈ rest, x < 256 := by
      intro x hx; exact h x (by simp [hx])
    simp [bodyIdx, b64decodeIdx, ih hrest]
    refine ⟨by omega, by omega, by omega⟩

theorem length_b64body_mod (bs : List Nat) : (b64body bs).length % 4 ≠ 1 := by
  induction bs using b64body.induct with
  | case1 => simp [b64body]
  | case2 b1 => simp [b64body]
  | case3 b1 b2 => simp [b64body]
  | case4 b1 b2 b3 rest ih => simp [b64body]; omega

/-- Round trip: forgiving-base64 decode inverts canonical encoding on bytes. -/
theorem atobCore_b64encodeNums (bs : List Nat) (h : ∀ x ∈ bs, x < 256) :
    atobCore (b64encodeNums bs) = some bs := by
  unfold atobCore
  rw [filter_b64encodeNums, stripPad_b64encodeNums]
  rw [if_neg (length_b64body_mod bs), lookupIdxs_b64body bs h]
  simp [b64decodeIdx_bodyIdx bs h]

/-- Source crypto.ts arrayBufferToBase64: builds a binary string from the
bytes and feeds it to btoa; since the bytes always fit one char each, this is
base64 over the byte list. -/
def arrayBufferToBase64 (bs : List Nat) : String := String.mk (b64encodeNums bs)

/-- Source crypto.ts base64ToArrayBuffer: atob then charCodeAt per char. -/
def base64ToArrayBuffer (s : String) : Option (List Nat) := atobCore s.data

theorem base64ToArrayBuffer_roundtrip (bs : List Nat) (h : ∀ x ∈ bs, x < 256) :
    base64ToArrayBuffer (arrayBufferToBase64 bs) = some bs :=
  atobCore_b64encodeNums bs h

/-- Platform btoa on a string: fails (InvalidCharacterError) when any char is
above U+00FF, else base64 of the char codes. -/
def btoaStr (s : String) : Option String :=
  if ∀ c ∈ s.data, c.toNat < 256 then
    some (String.mk (b64encodeNums (s.data.map Char.toNat)))
  else none

/-- Platform atob on a string: forgiving-base64 decode, result returned as a
binary string. -/
def atobStr (s : String) : Option String :=
  (atobCore s.data).map (fun bs => String.mk (bs.map Char.ofNat))

theorem atobStr_btoaStr (s : String) (h : ∀ c ∈ s.data, c.toNat < 256) :
    btoaStr s = some (String.mk (b64encodeNums (s.data.map Char.toNat))) ∧
    atobStr (String.mk (b64encodeNums (s.data.map Char.toNat))) = some s := by
  constructor
  · unfold btoaStr
    exact if_pos h
  · have hb : ∀ x ∈ s.data.map Char.toNat, x < 256 := by
      intro x hx
      rcases List.mem_map.mp hx with ⟨c, hc, rfl⟩
      exact h c hc
    have hdec : atobCore (b64encodeNums (s.data.map Char.toNat))
        = some (s.data.map Char.toNat) := atobCore_b64encodeNums _ hb
    simp only [atobStr]
    rw [hdec]
    simp only [Option.map_some', Option.some.injEq, List.map_map]
    have hmap : s.data.map (Char.ofNat ∘ Char.toNat) = s.data := by
      have hco : (Char.ofNat ∘ Char.toNat) = id := by
        funext c; exact Char.ofNat_toNat c
      rw [hco, List.map_id]
    rw [hmap]

/-! ## UTF-8: model of the platform TextEncoder/TextDecoder pair.

Modelled from the platform (not repository code).  Strings are sequences of
Unicode scalar values (Lean Char); TextEncoder.encode is standard UTF-8.
TextDecoder.decode never throws in its default configuration; invalid byte
sequences produce U+FFFD, modelled coarsely (no claim exercises the decoder
on non-genuine input, because GCM authentication runs first). -/

def utf8EncodeChar (c : Char) : List Nat :=
  let n := c.toNat
  if n < 128 then [n]
  else if n < 2048 then [192 + n / 64, 128 + n % 64]
  else if n < 65536 then [224 + n / 4096, 128 + n / 64 % 64, 128 + n % 64]
  else [240 + n / 262144, 128 + n / 4096 % 64, 128 + n / 64 % 64, 128 + n % 64]

def utf8Encode : List Char → List Nat
  | [] => []
  | c :: rest => utf8EncodeChar c ++ utf8Encode rest

def replChar : Char := '�'

/-- Fuel-indexed UTF-8 decoder; one unit of fuel is spent per decoded unit, and
at least one byte is consumed per unit, so fuel equal to the byte count always
suffices. -/
def utf8DecodeF : Nat → List Nat → List Char
  | 0, _ => []
  | _ + 1, [] => []
  | fuel + 1, b :: rest =>
    if b < 128 then Char.ofNat b :: utf8DecodeF fuel rest
    else if b < 192 then replChar :: utf8DecodeF fuel rest
    else if b < 224 then
      match rest with
      | b2 :: r2 =>
        if 128 ≤ b2 ∧ b2 < 192 then
          Char.ofNat ((b - 192) * 64 + (b2 - 128)) :: utf8DecodeF fuel r2
        else replChar :: replChar :: utf8DecodeF fuel r2
      | [] => [replChar]
    else if b < 240 then
      match rest with
      | b2 :: b3 :: r3 =>
        if (128 ≤ b2 ∧ b2 < 192) ∧ (128 ≤ b3 ∧ b3 < 192) then
          Char.ofNat ((b - 224) * 4096 + (b2 - 128) * 64 + (b3 - 128)) :: utf8DecodeF fuel r3
        else replChar :: replChar :: replChar :: utf8DecodeF fuel r3
      | _ => [replChar]
    else
      match rest with
      | b2 :: b3 :: b4 :: r4 =>
        if (128 ≤ b2 ∧ b2 < 192) ∧ (128 ≤ b3 ∧ b3 < 192) ∧ (128 ≤ b4 ∧ b4 < 192) then
          Char.ofNat ((b - 240) * 262144 + (b2 - 128) * 4096 + (b3 - 128) * 64 + (b4 - 128))
            :: utf8DecodeF fuel r4
        else replChar :: replChar :: replChar :: replChar :: utf8DecodeF fuel r4
      | _ => [replChar]

def utf8Decode (bs : List Nat) : List Char := utf8DecodeF bs.length bs

theorem char_toNat_lt (c : Char) : c.toNat < 1114112 := by
  rcases c.valid with h | ⟨h1, h2⟩
  · have hh : c.toNat < 55296 := h
    omega
  · exact h2

/-- With sufficient fuel, decoding an encoding prefixed list peels one char. -/
theorem utf8DecodeF_encode (cs : List Char) :
    ∀ fuel, (utf8Encode cs).length ≤ fuel → utf8DecodeF fuel (utf8Encode cs) = cs := by
  induction cs with
  | nil =>
    intro fuel hf
    cases fuel <;> simp [utf8Encode, utf8DecodeF]
  | cons c rest ih =>
    intro fuel hf
    have hlt := char_toNat_lt c
    have hofn := Char.ofNat_toNat c
    have henc : utf8Encode (c :: rest) = utf8EncodeChar c ++ utf8Encode rest := rfl
    by_cases h1 : c.toNat < 128
    · have he : utf8EncodeChar c = [c.toNat] := by
        unfold utf8EncodeChar; rw [if_pos h1]
      rw [henc, he] at hf ⊢
      simp only [List.cons_append, List.nil_append, List.length_cons] at hf ⊢
      obtain ⟨f, rfl⟩ : ∃ f, fuel = f + 1 := ⟨fuel - 1, by omega⟩
      simp only [utf8DecodeF, if_pos h1, hofn]
      rw [ih f (by omega)]
    · by_cases h2 : c.toNat < 2048
      · have he : utf8EncodeChar c = [192 + c.toNat / 64, 128 + c.toNat % 64] := by
          unfold utf8EncodeChar; rw [if_neg h1, if_pos h2]
        rw [henc, he] at hf ⊢
        simp only [List.cons_append, List.nil_append, List.length_cons] at hf ⊢
        obtain ⟨f, rfl⟩ : ∃ f, fuel = f + 1 := ⟨fuel - 1, by omega⟩
        simp only [utf8DecodeF]
        rw [if_neg (by omega), if_neg (by omega), if_pos (by omega)]
        rw [if_pos (by constructor <;> omega)]
        have hv : (192 + c.toNat / 64 - 192) * 64 + (128 + c.toNat % 64 - 128) = c.toNat := by
          omega
        rw [hv, hofn, ih f (by omega)]
      · by_cases h3 : c.toNat < 65536
        · have he : utf8EncodeChar c
              = [224 + c.toNat / 4096, 128 + c.toNat / 64 % 64, 128 + c.toNat % 64] := by
            unfold utf8EncodeChar; rw [if_neg h1, if_neg h2, if_pos h3]
          rw [henc, he] at hf ⊢
          simp only [List.cons_append, List.nil_append, List.length_cons] at hf ⊢
          obtain ⟨f, rfl⟩ : ∃ f, fuel = f + 1 := ⟨fuel - 1, by omega⟩
          simp only [utf8DecodeF]
          rw [if_neg (by omega), if_neg (by omega), if_neg (by omega), if_pos (by omega)]
          rw [if_pos (by refine ⟨⟨by omega, by omega⟩, by omega, by omega⟩)]
          have hv : (224 + c.toNat / 4096 - 224) * 4096 +
              (128 + c.toNat / 64 % 64 - 128) * 64 + (128 + c.toNat % 64 - 128) = c.toNat := by
            omega
          rw [hv, hofn, ih f (by omega)]
        · have he : utf8EncodeChar c
              = [240 + c.toNat / 262144, 128 + c.toNat / 4096 % 64,
                 128 + c.toNat / 64 % 64, 128 + c.toNat % 64] := by
            unfold utf8EncodeChar; rw [if_neg h1, if_neg h2, if_neg h3]
          rw [henc, he] at hf ⊢
          simp only [List.cons_append, List.nil_append, List.length_cons] at hf ⊢
          obtain ⟨f, rfl⟩ : ∃ f, fuel = f + 1 := ⟨fuel - 1, by omega⟩
          simp only [utf8DecodeF]
          rw [if_neg (by omega), if_neg (by omega), if_neg (by omega), if_neg (by omega)]
          rw [if_pos (by refine ⟨⟨by omega, by omega⟩, ⟨by omega, by omega⟩, by omega, by omega⟩)]
          have hv : (240 + c.toNat / 262144 - 240) * 262144 +
              (128 + c.toNat / 4096 % 64 - 128) * 4096 +
              (128 + c.toNat / 64 % 64 - 128) * 64 + (128 + c.toNat % 64 - 128) = c.toNat := by
            omega
          rw [hv, hofn, ih f (by omega)]

/-- Round trip: UTF-8 decode inverts UTF-8 encode on scalar-value strings. -/
theorem utf8Decode_utf8Encode (cs : List Char) : utf8Decode (utf8Encode cs) = cs :=
  utf8DecodeF_encode cs _ le_rfl

/-- Bytes produced by the UTF-8 encoder are in range. -/
theorem utf8EncodeChar_lt (c : Char) : ∀ b ∈ utf8EncodeChar c, b < 256 := by
  have hlt := char_toNat_lt c
  unfold utf8EncodeChar
  by_cases h1 : c.toNat < 128
  · simp only [if_pos h1, List.mem_singleton]
    omega
  · by_cases h2 : c.toNat < 2048
    · simp only [if_neg h1, if_pos h2, List.mem_cons, List.not_mem_nil, or_false]
      rintro b (rfl | rfl) <;> omega
    · by_cases h3 : c.toNat < 65536
      · simp only [if_neg h1, if_neg h2, if_pos h3, List.mem_cons, List.not_mem_nil, or_false]
        rintro b (rfl | rfl | rfl) <;> omega
      · simp only [if_neg h1, if_neg h2, if_neg h3, List.mem_cons, List.not_mem_nil, or_false]
        rintro b (rfl | rfl | rfl | rfl) <;> omega

theorem utf8Encode_lt (cs : List Char) : ∀ b ∈ utf8Encode cs, b < 256 := by
  induction cs with
  | nil => intro b hb; simp [utf8Encode] at hb
  | cons c rest ih =>
    intro b hb
    rw [show utf8Encode (c :: rest) = utf8EncodeChar c ++ utf8Encode rest from rfl] at hb
    rcases List.mem_append.mp hb with h | h
    · exact utf8EncodeChar_lt c b h
    · exact ih b h

/-! ## Ideal AES-256-GCM primitive.

Modelled from the spec (crypto.subtle is a platform facility, not repository
code): an authenticated cipher.  Encryption masks the plaintext bytes with a
key-and-iv-determined keystream (a concrete placeholder PRF; only its length
preservation, byte range and involutivity matter) and attaches an
authentication tag.  The tag is abstract: it records exactly which key, iv
and masked body produced it, and decryption succeeds precisely when the
presented tag matches the presented key, iv and body — the standard symbolic
idealisation of GCM authenticity.  In the serialized form the tag occupies
the trailing TAG_BYTES bytes of the ciphertext (GCM appends a 16-byte tag),
which is accounted for by GcmBuffer.byteLength. -/

def keystream (key iv : List Nat) (i : Nat) : Nat :=
  ((key ++ iv).foldl (fun a b => (a * 31 + b) % 256) 7 + i) % 256

def gcmMask (key iv : List Nat) : Nat → List Nat → List Nat
  | _, [] => []
  | i, b :: rest => (b ^^^ keystream key iv i) :: gcmMask key iv (i + 1) rest

/-- Abstract GCM authentication tag: binds the key, iv and masked body. -/
structure GcmTag where
  key : List Nat
  iv : List Nat
  body : List Nat
deriving DecidableEq

/-- Ciphertext of subtle.encrypt in its base64-string form (the form stored
in EncryptedData.ciphertext), with its authentication tag. -/
structure CiphertextB64 where
  data : String
  tag : GcmTag
deriving DecidableEq

/-- Source crypto.ts EncryptedData. -/
structure EncryptedData where
  ciphertext : CiphertextB64
  iv : String
  algorithm : String
deriving DecidableEq

/-- Raw ciphertext buffer of subtle.encrypt (the form kept in a Blob by
encryptFile), with its authentication tag. -/
structure GcmBuffer where
  body : List Nat
  tag : GcmTag
deriving DecidableEq

/-- Byte size of the serialized GCM authentication tag. -/
def TAG_BYTES : Nat := 16

/-- Byte length of a serialized GCM ciphertext: the masked body plus the
16-byte tag GCM appends. -/
def GcmBuffer.byteLength (buf : GcmBuffer) : Nat := buf.body.length + TAG_BYTES

theorem keystream_lt (key iv : List Nat) (i : Nat) : keystream key iv i < 256 :=
  Nat.mod_lt _ (by omega)

theorem gcmMask_length (key iv : List Nat) :
    ∀ i bs, (gcmMask key iv i bs).length = bs.length := by
  intro i bs
  induction bs generalizing i with
  | nil => rfl
  | cons b rest ih => simp [gcmMask, ih]

theorem gcmMask_lt (key iv : List Nat) :
    ∀ i bs, (∀ b ∈ bs, b < 256) → ∀ b ∈ gcmMask key iv i bs, b < 256 := by
  intro i bs
  induction bs generalizing i with
  | nil => intro _ b hb; simp [gcmMask] at hb
  | cons x rest ih =>
    intro h b hb
    simp only [gcmMask, List.mem_cons] at hb
    rcases hb with rfl | hb
    · have hx : x < 2 ^ 8 := h x (by simp)
      have hs : keystream key iv i < 2 ^ 8 := keystream_lt key iv i
      have := Nat.xor_lt_two_pow hx hs
      simpa using this
    · exact ih (i + 1) (fun y hy => h y (by simp [hy])) b hb

theorem gcmMask_invol (key iv : List Nat) :
    ∀ i bs, gcmMask key iv i (gcmMask key iv i bs) = bs := by
  intro i bs
  induction bs generalizing i with
  | nil => rfl
  | cons b rest ih =>
    simp only [gcmMask, List.cons.injEq]
    exact ⟨Nat.xor_cancel_right _ _, ih (i + 1)⟩

/-! ## crypto.ts wrapper functions.

Embedded from src/src/lib/encryption/crypto.ts.  Randomness (the iv drawn by
crypto.getRandomValues, and fresh key bytes) is passed explicitly as the
bytes the secure RNG returned for that call; the wrapper's own logic (UTF-8
encode, base64 encode/decode, field assembly, error collapsing) follows the
source.  Errors carry the message strings the source throws. -/

def encryptTextError : String := "Failed to encrypt text"
def decryptTextError : String :=
  "Failed to decrypt text. Data may be corrupted or key is incorrect."
def decryptFileError : String :=
  "Failed to decrypt file. Data may be corrupted or key is incorrect."
def importKeyError : String := "Failed to import encryption key"

/-- Source crypto.ts EncryptionKey: the key handle plus its exported base64.
The in-memory CryptoKey handle is modelled by its raw 32 key bytes. -/
structure EncryptionKey where
  key : List Nat
  keyData : String
deriving DecidableEq

/-- Source generateEncryptionKey; randomBytes is the 32-byte output of the
secure generator for this call. -/
def generateEncryptionKey (randomBytes : List Nat) : EncryptionKey :=
  ⟨randomBytes, arrayBufferToBase64 randomBytes⟩

/-- Source importEncryptionKey: base64-decode then subtle.importKey, which
accepts only AES key sizes (16, 24 or 32 bytes of data). -/
def importEncryptionKey (keyData : String) : Except String (List Nat) :=
  match base64ToArrayBuffer keyData with
  | none => Except.error importKeyError
  | some bs =>
    if bs.length = 16 ∨ bs.length = 24 ∨ bs.length = 32 then Except.ok bs
    else Except.error importKeyError

/-- Source encryptText; ivBytes is the 12-byte output of
crypto.getRandomValues for this call. -/
def encryptText (text : String) (key : List Nat) (ivBytes : List Nat) : EncryptedData :=
  let data := utf8Encode text.data
  let body := gcmMask key ivBytes 0 data
  { ciphertext := ⟨arrayBufferToBase64 body, ⟨key, ivBytes, body⟩⟩
    iv := arrayBufferToBase64 ivBytes
    algorithm := "AES-GCM-256" }

/-- Source decryptText. -/
def decryptText (encryptedData : EncryptedData) (key : List Nat) : Except String String :=
  match base64ToArrayBuffer encryptedData.ciphertext.data,
        base64ToArrayBuffer encryptedData.iv with
  | some body, some ivB =>
    if encryptedData.ciphertext.tag = ⟨key, ivB, body⟩ then
      Except.ok (String.mk (utf8Decode (gcmMask key ivB 0 body)))
    else Except.error decryptTextError
  | _, _ => Except.error decryptTextError

/-- Result record of encryptFile (encryptedBlob, iv, algorithm). -/
structure EncryptedFileResult where
  encryptedBlob : GcmBuffer
  iv : String
  algorithm : String
deriving DecidableEq

/-- Source encryptFile; the file blob is its byte list. -/
def encryptFile (file : List Nat) (key : List Nat) (ivBytes : List Nat) :
    EncryptedFileResult :=
  let body := gcmMask key ivBytes 0 file
  { encryptedBlob := ⟨body, ⟨key, ivBytes, body⟩⟩
    iv := arrayBufferToBase64 ivBytes
    algorithm := "AES-GCM-256" }

/-- Source decryptFile (the originalType parameter only sets the Blob MIME
type and is omitted). -/
def decryptFile (encryptedBlob : GcmBuffer) (iv : String) (key : List Nat) :
    Except String (List Nat) :=
  match base64ToArrayBuffer iv with
  | some ivB =>
    if encryptedBlob.tag = ⟨key, ivB, encryptedBlob.body⟩ then
      Except.ok (gcmMask key ivB 0 encryptedBlob.body)
    else Except.error decryptFileError
  | none => Except.error decryptFileError

/-- Helper: text round trip under matching key and iv. -/
theorem decryptText_encryptText (s : String) (key ivBytes : List Nat)
    (hiv : ∀ b ∈ ivBytes, b < 256) :
    decryptText (encryptText s key ivBytes) key = Except.ok s := by
  have hdata := utf8Encode_lt s.data
  have hbody : ∀ b ∈ gcmMask key ivBytes 0 (utf8Encode s.data), b < 256 :=
    gcmMask_lt key ivBytes 0 _ hdata
  simp only [encryptText, decryptText]
  rw [base64ToArrayBuffer_roundtrip _ hbody, base64ToArrayBuffer_roundtrip _ hiv]
  simp only [if_pos rfl, gcmMask_invol, utf8Decode_utf8Encode]
  simp

/-! ## JSON: model of the platform JSON.stringify/JSON.parse pair.

Modelled from the platform (not repository code), restricted to the two
object shapes this module ever serializes: KeyMetadata records and backup
bundles, rendered exactly as JSON.stringify renders the object literals the
source builds (fixed field order, no whitespace), with backslash/quote
escaping in strings and decimal rendering of timestamps.  The parse
direction accepts exactly these renderings; a stored value that is not such
a rendering is unparsable metadata (the corrupt case of the spec). -/

/-- Source keyStorage.ts KeyMetadata. -/
structure KeyMetadata where
  version : String
  createdAt : Nat
  algorithm : String
  userId : String
deriving DecidableEq

/-- The backup bundle object built by exportKeyForBackup. -/
structure BackupBundle where
  version : String
  keyData : String
  metadata : KeyMetadata
  exportedAt : Nat
deriving DecidableEq

def escChar (c : Char) : List Char :=
  if c = '\\' ∨ c = '"' then ['\\', c] else [c]

def escStr : List Char → List Char
  | [] => []
  | c :: rest => escChar c ++ escStr rest

/-- Expect a literal prefix, returning the remainder. -/
def matchLit : List Char → List Char → Option (List Char)
  | [], s => some s
  | _ :: _, [] => none
  | c :: cs, d :: ds => if c = d then matchLit cs ds else none

/-- Fuel-indexed reader of an escaped string body up to its closing quote;
at least one character is consumed per unit of fuel. -/
def parseQuotedF : Nat → List Char → Option (List Char × List Char)
  | 0, _ => none
  | _ + 1, [] => none
  | fuel + 1, c :: rest =>
    if c = '"' then some ([], rest)
    else if c = '\\' then
      match rest with
      | [] => none
      | d :: rest2 => (parseQuotedF fuel rest2).map fun p => (d :: p.1, p.2)
    else (parseQuotedF fuel rest).map fun p => (c :: p.1, p.2)

/-- Read an escaped string body up to its closing quote. -/
def parseQuoted (l : List Char) : Option (List Char × List Char) :=
  parseQuotedF l.length l

def digitChar (n : Nat) : Char :=
  match n with
  | 0 => '0' | 1 => '1' | 2 => '2' | 3 => '3' | 4 => '4'
  | 5 => '5' | 6 => '6' | 7 => '7' | 8 => '8' | 9 => '9'
  | _ => '0'

def natDigitsF : Nat → Nat → List Char
  | 0, _ => []
  | fuel + 1, n =>
    if n < 10 then [digitChar n]
    else natDigitsF fuel (n / 10) ++ [digitChar (n % 10)]

def natDigits (n : Nat) : List Char := natDigitsF (n + 1) n

def isDigitCh (c : Char) : Bool := decide (48 ≤ c.toNat ∧ c.toNat ≤ 57)

/-- Read a nonempty maximal digit run as a number. -/
def parseDigits (l : List Char) : Option (Nat × List Char) :=
  if l.takeWhile isDigitCh = [] then none
  else some ((l.takeWhile isDigitCh).foldl (fun a c => a * 10 + (c.toNat - 48)) 0,
             l.dropWhile isDigitCh)

def metaChars (m : KeyMetadata) : List Char :=
  "\x7b\"version\":\"".data ++ escStr m.version.data ++
  "\",\"createdAt\":".data ++ natDigits m.createdAt ++
  ",\"algorithm\":\"".data ++ escStr m.algorithm.data ++
  "\",\"userId\":\"".data ++ escStr m.userId.data ++ "\"\x7d".data

/-- JSON.stringify of a KeyMetadata object as built by the source. -/
def stringifyMetadata (m : KeyMetadata) : String := String.mk (metaChars m)

def parseMetadataBody (l : List Char) : Option (KeyMetadata × List Char) :=
  (matchLit "\x7b\"version\":\"".data l).bind fun r1 =>
  (parseQuoted r1).bind fun p1 =>
  (matchLit ",\"createdAt\":".data p1.2).bind fun r3 =>
  (parseDigits r3).bind fun p2 =>
  (matchLit ",\"algorithm\":\"".data p2.2).bind fun r5 =>
  (parseQuoted r5).bind fun p3 =>
  (matchLit ",\"userId\":\"".data p3.2).bind fun r7 =>
  (parseQuoted r7).bind fun p4 =>
  (matchLit "\x7d".data p4.2).bind fun r9 =>
  some (⟨String.mk p1.1, p2.1, String.mk p3.1, String.mk p4.1⟩, r9)

/-- JSON.parse of a serialized KeyMetadata. -/
def parseMetadata (s : String) : Option KeyMetadata :=
  match parseMetadataBody s.data with
  | some (m, []) => some m
  | _ => none

def backupChars (b : BackupBundle) : List Char :=
  "\x7b\"version\":\"".data ++ escStr b.version.data ++
  "\",\"keyData\":\"".data ++ escStr b.keyData.data ++
  "\",\"metadata\":".data ++ metaChars b.metadata ++
  ",\"exportedAt\":".data ++ natDigits b.exportedAt ++ "\x7d".data

/-- JSON.stringify of the backup bundle object as built by the source. -/
def stringifyBackup (b : BackupBundle) : String := String.mk (backupChars b)

def parseBackupBody (l : List Char) : Option (BackupBundle × List Char) :=
  (matchLit "\x7b\"version\":\"".data l).bind fun r1 =>
  (parseQuoted r1).bind fun p1 =>
  (matchLit ",\"keyData\":\"".data p1.2).bind fun r3 =>
  (parseQuoted r3).bind fun p2 =>
  (matchLit ",\"metadata\":".data p2.2).bind fun r5 =>
  (parseMetadataBody r5).bind fun p3 =>
  (matchLit ",\"exportedAt\":".data p3.2).bind fun r7 =>
  (parseDigits r7).bind fun p4 =>
  (matchLit "\x7d".data p4.2).bind fun r9 =>
  some (⟨String.mk p1.1, String.mk p2.1, p3.1, p4.1⟩, r9)

/-- JSON.parse of a serialized backup bundle. -/
def parseBackup (s : String) : Option BackupBundle :=
  match parseBackupBody s.data with
  | some (b, []) => some b
  | _ => none

theorem matchLit_append (lit rest : List Char) : matchLit lit (lit ++ rest) = some rest := by
  induction lit with
  | nil => rfl
  | cons c cs ih => simp [matchLit, ih]

theorem matchLit_cons_cons (c : Char) (cs ds : List Char) :
    matchLit (c :: cs) (c :: ds) = matchLit cs ds := by
  simp [matchLit]

theorem matchLit_nil_eq (l : List Char) : matchLit [] l = some l := rfl

theorem parseQuotedF_escStr (s : List Char) :
    ∀ fuel rest, (escStr s).length + 1 ≤ fuel →
      parseQuotedF fuel (escStr s ++ '"' :: rest) = some (s, rest) := by
  induction s with
  | nil =>
    intro fuel rest hf
    obtain ⟨f, rfl⟩ : ∃ f, fuel = f + 1 := ⟨fuel - 1, by omega⟩
    simp [escStr, parseQuotedF]
  | cons c cs ih =>
    intro fuel rest hf
    by_cases hc : c = '\\' ∨ c = '"'
    · rw [show escStr (c :: cs) = '\\' :: c :: escStr cs from by
        simp [escStr, escChar, if_pos hc]] at hf ⊢
      simp only [List.length_cons] at hf
      obtain ⟨f, rfl⟩ : ∃ f, fuel = f + 1 := ⟨fuel - 1, by omega⟩
      have hih := ih f rest (by omega)
      simp only [List.cons_append]
      simp [parseQuotedF, hih]
    · push_neg at hc
      rw [show escStr (c :: cs) = c :: escStr cs from by
        simp [escStr, escChar, if_neg (not_or.mpr ⟨hc.1, hc.2⟩)]] at hf ⊢
      simp only [List.length_cons] at hf
      obtain ⟨f, rfl⟩ : ∃ f, fuel = f + 1 := ⟨fuel - 1, by omega⟩
      have hih := ih f rest (by omega)
      simp only [List.cons_append]
      simp [parseQuotedF, hc.1, hc.2, hih]

theorem parseQuoted_escStr (s rest : List Char) :
    parseQuoted (escStr s ++ '"' :: rest) = some (s, rest) := by
  apply parseQuotedF_escStr
  simp

theorem isDigitCh_digitChar (k : Nat) : isDigitCh (digitChar k) = true := by
  unfold digitChar
  split <;> decide

theorem digitChar_toNat {k : Nat} (h : k < 10) : (digitChar k).toNat - 48 = k := by
  revert h
  have hh : ∀ j, j < 10 → (digitChar j).toNat - 48 = j := by decide
  exact hh k

theorem natDigitsF_all_digits :
    ∀ fuel n, ∀ c ∈ natDigitsF fuel n, isDigitCh c = true := by
  intro fuel
  induction fuel with
  | zero => intro n c hc; simp [natDigitsF] at hc
  | succ f ih =>
    intro n c hc
    by_cases hn : n < 10
    · simp only [natDigitsF, if_pos hn, List.mem_singleton] at hc
      subst hc; exact isDigitCh_digitChar n
    · simp only [natDigitsF, if_neg hn, List.mem_append, List.mem_singleton] at hc
      rcases hc with hc | hc
      · exact ih _ c hc
      · subst hc; exact isDigitCh_digitChar _

theorem natDigitsF_ne_nil (fuel n : Nat) (h : 0 < fuel) : natDigitsF fuel n ≠ [] := by
  obtain ⟨f, rfl⟩ : ∃ f, fuel = f + 1 := ⟨fuel - 1, by omega⟩
  by_cases hn : n < 10
  · simp [natDigitsF, if_pos hn]
  · simp [natDigitsF, if_neg hn]

def pow10F : Nat → Nat → Nat
  | 0, _ => 1
  | fuel + 1, n => if n < 10 then 10 else pow10F fuel (n / 10) * 10

theorem foldl_natDigitsF :
    ∀ fuel n a, n < fuel →
      (natDigitsF fuel n).foldl (fun a c => a * 10 + (c.toNat - 48)) a
        = a * pow10F fuel n + n := by
  intro fuel
  induction fuel with
  | zero => intro n a h; omega
  | succ f ih =>
    intro n a h
    by_cases hn : n < 10
    · simp only [natDigitsF, if_pos hn, pow10F, List.foldl_cons, List.foldl_nil]
      rw [digitChar_toNat hn]
    · simp only [natDigitsF, if_neg hn, pow10F, List.foldl_append,
        List.foldl_cons, List.foldl_nil]
      have hq : n / 10 < f := by omega
      rw [ih (n / 10) a hq, digitChar_toNat (by omega : n % 10 < 10)]
      have hmod : n / 10 * 10 + n % 10 = n := by omega
      calc (a * pow10F f (n / 10) + n / 10) * 10 + n % 10
          = a * (pow10F f (n / 10) * 10) + (n / 10 * 10 + n % 10) := by ring
        _ = a * (pow10F f (n / 10) * 10) + n := by rw [hmod]

theorem takeWhile_append_all {p : Char → Bool} :
    ∀ l1 l2 : List Char, (∀ c ∈ l1, p c = true) →
      (∀ d, l2.head? = some d → p d = false) →
      (l1 ++ l2).takeWhile p = l1 ∧ (l1 ++ l2).dropWhile p = l2 := by
  intro l1
  induction l1 with
  | nil =>
    intro l2 _ h2
    match l2 with
    | [] => simp
    | d :: t =>
      have hd := h2 d rfl
      simp [List.takeWhile_cons, List.dropWhile_cons, hd]
  | cons c l1 ih =>
    intro l2 h1 h2
    have hc : p c = true := h1 c (by simp)
    have ihr := ih l2 (fun x hx => h1 x (by simp [hx])) h2
    simp [List.takeWhile_cons, List.dropWhile_cons, hc, ihr.1, ihr.2]

theorem parseDigits_natDigits (n : Nat) (rest : List Char)
    (h : ∀ d, rest.head? = some d → isDigitCh d = false) :
    parseDigits (natDigits n ++ rest) = some (n, rest) := by
  have hall : ∀ c ∈ natDigits n, isDigitCh c = true :=
    fun c hc => natDigitsF_all_digits (n + 1) n c hc
  obtain ⟨ht, hd⟩ := takeWhile_append_all (natDigits n) rest hall h
  have hne : natDigits n ≠ [] := natDigitsF_ne_nil (n + 1) n (by omega)
  have hfold : (natDigits n).foldl (fun a c => a * 10 + (c.toNat - 48)) 0
      = 0 * pow10F (n + 1) n + n := foldl_natDigitsF (n + 1) n 0 (by omega)
  unfold parseDigits
  rw [ht, hd, if_neg hne, hfold]
  simp

/-- JSON parse inverts JSON stringify on metadata objects, leaving trailing
input untouched. -/
theorem parseMetadataBody_metaChars (m : KeyMetadata) (rest : List Char) :
    parseMetadataBody (metaChars m ++ rest) = some (m, rest) := by
  obtain ⟨ver, cre, alg, uid⟩ := m
  unfold parseMetadataBody metaChars
  simp only [List.append_assoc, List.cons_append, List.nil_append]
  simp only [matchLit_cons_cons, matchLit_nil_eq, Option.some_bind]
  rw [parseQuoted_escStr]
  simp only [matchLit_cons_cons, matchLit_nil_eq, Option.some_bind]
  rw [parseDigits_natDigits _ _ (by intro d hd; simp at hd; subst hd; decide)]
  simp only [matchLit_cons_cons, matchLit_nil_eq, Option.some_bind]
  rw [parseQuoted_escStr]
  simp only [matchLit_cons_cons, matchLit_nil_eq, Option.some_bind]
  rw [parseQuoted_escStr]
  simp only [matchLit_cons_cons, matchLit_nil_eq, Option.some_bind]

theorem parseMetadata_stringifyMetadata (m : KeyMetadata) :
    parseMetadata (stringifyMetadata m) = some m := by
  unfold parseMetadata stringifyMetadata
  have hb : parseMetadataBody (metaChars m) = some (m, []) := by
    have := parseMetadataBody_metaChars m []
    simpa using this
  rw [show (String.mk (metaChars m)).data = metaChars m from rfl, hb]

/-- JSON parse inverts JSON stringify on backup bundles. -/
theorem parseBackupBody_backupChars (b : BackupBundle) (rest : List Char) :
    parseBackupBody (backupChars b ++ rest) = some (b, rest) := by
  obtain ⟨ver, kd, md, exp⟩ := b
  unfold parseBackupBody backupChars
  simp only [List.append_assoc, List.cons_append, List.nil_append]
  simp only [matchLit_cons_cons, matchLit_nil_eq, Option.some_bind]
  rw [parseQuoted_escStr]
  simp only [matchLit_cons_cons, matchLit_nil_eq, Option.some_bind]
  rw [parseQuoted_escStr]
  simp only [matchLit_cons_cons, matchLit_nil_eq, Option.some_bind]
  rw [parseMetadataBody_metaChars]
  simp only [matchLit_cons_cons, matchLit_nil_eq, Option.some_bind]
  rw [parseDigits_natDigits _ _ (by intro d hd; simp at hd; subst hd; decide)]
  simp only [matchLit_cons_cons, matchLit_nil_eq, Option.some_bind]

theorem parseBackup_stringifyBackup (b : BackupBundle) :
    parseBackup (stringifyBackup b) = some b := by
  unfold parseBackup stringifyBackup
  have hb : parseBackupBody (backupChars b) = some (b, []) := by
    have := parseBackupBody_backupChars b []
    simpa using this
  rw [show (String.mk (backupChars b)).data = backupChars b from rfl, hb]

/-! ## localStorage model.

Modelled from the platform (not repository code): a flat string-keyed store
with getItem/setItem/removeItem.  getItem returns the stored string or none;
setItem overwrites; removeItem deletes. -/

def Store := String → Option String

def Store.getItem (st : Store) (k : String) : Option String := st k

def Store.setItem (st : Store) (k v : String) : Store :=
  fun k' => if k' = k then some v else st k'

def Store.removeItem (st : Store) (k : String) : Store :=
  fun k' => if k' = k then none else st k'

/-- The empty store. -/
def Store.empty : Store := fun _ => none

theorem Store.getItem_setItem_self (st : Store) (k v : String) :
    (st.setItem k v).getItem k = some v := by
  simp [Store.getItem, Store.setItem]

theorem Store.getItem_setItem_ne (st : Store) (k v k' : String) (h : k' ≠ k) :
    (st.setItem k v).getItem k' = st.getItem k' := by
  simp [Store.getItem, Store.setItem, h]

theorem Store.getItem_removeItem_self (st : Store) (k : String) :
    (st.removeItem k).getItem k = none := by
  simp [Store.getItem, Store.removeItem]

theorem Store.getItem_removeItem_ne (st : Store) {k k' : String} (h : k' ≠ k) :
    (st.removeItem k).getItem k' = st.getItem k' := by
  simp [Store.getItem, Store.removeItem, h]

/-! ## keyStorage.ts.

Embedded from src/src/lib/encryption/keyStorage.ts.  Each function takes the
store as an explicit argument and returns the written store where the source
mutates localStorage.  Date.now() and fresh random bytes are explicit
arguments.  The JavaScript truthiness checks on strings (an empty string is
falsy) are embedded as explicit emptiness tests.  Each catch-all in the
source collapses every failure of its try block into one generic Error,
carried here as that error's message string. -/

def KEY_VERSION : String := "1.0"

/-- Source storage key KEY_PREFIX + userId. -/
def keySlot (userId : String) : String := "reflections_encryption_key_" ++ userId

/-- Source storage key METADATA_PREFIX + userId. -/
def metaSlot (userId : String) : String := "reflections_key_metadata_" ++ userId

/-- Source keyStorage.ts StoredKey (CryptoKey handle modelled by raw bytes). -/
structure StoredKey where
  key : List Nat
  metadata : KeyMetadata
deriving DecidableEq

def generateKeyError : String := "Failed to generate encryption key"
def getStoredKeyError : String := "Failed to retrieve encryption key"
def exportKeyError : String := "Failed to export encryption key"
def importBackupError : String := "Failed to import encryption key. The backup may be corrupted."

/-- Source generateAndStoreKey. -/
def generateAndStoreKey (userId : String) (randomBytes : List Nat) (now : Nat)
    (st : Store) : StoredKey × Store :=
  let ek := generateEncryptionKey randomBytes
  let metadata : KeyMetadata := ⟨KEY_VERSION, now, "AES-256-GCM", userId⟩
  let st1 := (st.setItem (keySlot userId) ek.keyData).setItem (metaSlot userId)
    (stringifyMetadata metadata)
  (⟨ek.key, metadata⟩, st1)

/-- Source getStoredKey.  A missing slot or a falsy (empty-string) slot
returns null; with both slots non-empty, a metadata parse failure or a
key-import failure escapes the try block and is rethrown. -/
def getStoredKey (userId : String) (st : Store) : Except String (Option StoredKey) :=
  match st.getItem (keySlot userId), st.getItem (metaSlot userId) with
  | some keyData, some metadataStr =>
    if keyData = "" ∨ metadataStr = "" then Except.ok none
    else
      match parseMetadata metadataStr with
      | none => Except.error getStoredKeyError
      | some metadata =>
        match importEncryptionKey keyData with
        | Except.error _ => Except.error getStoredKeyError
        | Except.ok key => Except.ok (some ⟨key, metadata⟩)
  | _, _ => Except.ok none

/-- Source getOrCreateKey: return the existing record, else generate. -/
def getOrCreateKey (userId : String) (randomBytes : List Nat) (now : Nat)
    (st : Store) : Except String (StoredKey × Store) :=
  match getStoredKey userId st with
  | Except.error e => Except.error e
  | Except.ok (some existingKey) => Except.ok (existingKey, st)
  | Except.ok none => Except.ok (generateAndStoreKey userId randomBytes now st)

/-- Source exportKeyForBackup: reads both slots, parses the metadata, wraps
the bundle and btoa-encodes its JSON; every failure (missing slot, parse
error, btoa rejecting a char above U+00FF) is collapsed by the catch. -/
def exportKeyForBackup (userId : String) (now : Nat) (st : Store) :
    Except String String :=
  match st.getItem (keySlot userId), st.getItem (metaSlot userId) with
  | some keyData, some metadataStr =>
    if keyData = "" ∨ metadataStr = "" then Except.error exportKeyError
    else
      match parseMetadata metadataStr with
      | none => Except.error exportKeyError
      | some metadata =>
        match btoaStr (stringifyBackup ⟨metadata.version, keyData, metadata, now⟩) with
        | none => Except.error exportKeyError
        | some encoded => Except.ok encoded
  | _, _ => Except.error exportKeyError

/-- Source importKeyFromBackup: atob, JSON.parse, field presence check
(truthiness of keyData; in this restricted JSON model a parsed bundle always
carries a metadata object, so the metadata presence check cannot fire), then
key import to validate, rewrite of metadata.userId to the argument, write of
both slots.  The store is returned unchanged on every failure path. -/
def importKeyFromBackup (userId : String) (backupData : String) (st : Store) :
    Except String StoredKey × Store :=
  match atobStr backupData with
  | none => (Except.error importBackupError, st)
  | some backupStr =>
    match parseBackup backupStr with
    | none => (Except.error importBackupError, st)
    | some backup =>
      if backup.keyData = "" then (Except.error importBackupError, st)
      else
        match importEncryptionKey backup.keyData with
        | Except.error _ => (Except.error importBackupError, st)
        | Except.ok key =>
          let metadata : KeyMetadata := { backup.metadata with userId := userId }
          let st1 := (st.setItem (keySlot userId) backup.keyData).setItem
            (metaSlot userId) (stringifyMetadata metadata)
          (Except.ok ⟨key, metadata⟩, st1)

/-- Source deleteKey: removes both slots. -/
def deleteKey (userId : String) (st : Store) : Store :=
  (st.removeItem (keySlot userId)).removeItem (metaSlot userId)

/-- Source hasStoredKey: getItem on the key slot compared against null. -/
def hasStoredKey (userId : String) (st : Store) : Bool :=
  (st.getItem (keySlot userId)).isSome

/-- Source getKeyMetadata: reads only the metadata slot; falsy or unparsable
content degrades to null. -/
def getKeyMetadata (userId : String) (st : Store) : Option KeyMetadata :=
  match st.getItem (metaSlot userId) with
  | none => none
  | some metadataStr =>
    if metadataStr = "" then none else parseMetadata metadataStr

theorem keySlot_ne_metaSlot (u1 u2 : String) : keySlot u1 ≠ metaSlot u2 := by
  intro h
  have hd := congrArg String.data h
  simp only [keySlot, metaSlot, String.data_append] at hd
  have h12 := congrArg (fun l => l.get? 12) hd
  simp [String.data] at h12

/-! ## Helper lemmas for the claim theorems. -/

theorem b64ch_toNat_lt (i : Nat) : (b64ch i).toNat < 256 := by
  by_cases h : i < 64
  · revert h
    have hh : ∀ j, j < 64 → (b64ch j).toNat < 256 := by decide
    exact hh i
  · have hlen : b64chars.length ≤ i := by
      have h64 : b64chars.length = 64 := by decide
      omega
    unfold b64ch
    rw [List.getD_eq_default _ _ hlen]
    decide

theorem b64encodeNums_latin1 (bs : List Nat) :
    ∀ c ∈ b64encodeNums bs, c.toNat < 256 := by
  intro c hc
  rcases mem_b64encodeNums bs c hc with h | ⟨i, h⟩
  · subst h; decide
  · subst h; exact b64ch_toNat_lt i

theorem arrayBufferToBase64_ne_empty (bs : List Nat) (h : bs ≠ []) :
    arrayBufferToBase64 bs ≠ "" := by
  intro he
  have hd := congrArg String.data he
  simp only [arrayBufferToBase64] at hd
  match bs, h with
  | b1 :: rest, _ =>
    rcases rest with _ | ⟨b2, rest2⟩
    · simp [b64encodeNums] at hd
    · rcases rest2 with _ | ⟨b3, rest3⟩ <;> simp [b64encodeNums] at hd

theorem stringifyMetadata_ne_empty (m : KeyMetadata) : stringifyMetadata m ≠ "" := by
  intro he
  have hd := congrArg String.data he
  simp [stringifyMetadata, metaChars] at hd

theorem importEncryptionKey_b64 (kb : List Nat) (hb : ∀ x ∈ kb, x < 256)
    (hlen : kb.length = 16 ∨ kb.length = 24 ∨ kb.length = 32) :
    importEncryptionKey (arrayBufferToBase64 kb) = Except.ok kb := by
  unfold importEncryptionKey
  rw [base64ToArrayBuffer_roundtrip kb hb]
  simp [hlen]

theorem mem_escStr (l : List Char) : ∀ c ∈ escStr l, c = '\\' ∨ c ∈ l := by
  induction l with
  | nil => intro c hc; simp [escStr] at hc
  | cons x rest ih =>
    intro c hc
    simp only [escStr, List.mem_append] at hc
    rcases hc with hc | hc
    · unfold escChar at hc
      split at hc <;> simp at hc <;> rcases hc with rfl | rfl <;> simp
    · rcases ih c hc with h | h
      · exact Or.inl h
      · exact Or.inr (by simp [h])

theorem escStr_latin1 (s : String) (h : ∀ c ∈ s.data, c.toNat < 256) :
    ∀ c ∈ escStr s.data, c.toNat < 256 := by
  intro c hc
  rcases mem_escStr s.data c hc with rfl | hm
  · decide
  · exact h c hm

theorem natDigits_latin1 (n : Nat) : ∀ c ∈ natDigits n, c.toNat < 256 := by
  intro c hc
  have hd := natDigitsF_all_digits (n + 1) n c hc
  simp only [isDigitCh, decide_eq_true_eq] at hd
  omega

theorem metaChars_latin1 (m : KeyMetadata)
    (hv : ∀ c ∈ m.version.data, c.toNat < 256)
    (ha : ∀ c ∈ m.algorithm.data, c.toNat < 256)
    (hu : ∀ c ∈ m.userId.data, c.toNat < 256) :
    ∀ c ∈ metaChars m, c.toNat < 256 := by
  intro c hc
  simp only [metaChars, List.mem_append] at hc
  rcases hc with ((((((((hc | hc) | hc) | hc) | hc) | hc) | hc) | hc)) | hc
  · revert hc
    have hh : ∀ c ∈ ("\x7b\"version\":\"").data, c.toNat < 256 := by decide
    exact hh c
  · exact escStr_latin1 m.version hv c hc
  · revert hc
    have hh : ∀ c ∈ ("\",\"createdAt\":").data, c.toNat < 256 := by decide
    exact hh c
  · exact natDigits_latin1 m.createdAt c hc
  · revert hc
    have hh : ∀ c ∈ (",\"algorithm\":\"").data, c.toNat < 256 := by decide
    exact hh c
  · exact escStr_latin1 m.algorithm ha c hc
  · revert hc
    have hh : ∀ c ∈ ("\",\"userId\":\"").data, c.toNat < 256 := by decide
    exact hh c
  · exact escStr_latin1 m.userId hu c hc
  · revert hc
    have hh : ∀ c ∈ ("\"\x7d").data, c.toNat < 256 := by decide
    exact hh c

theorem backupChars_latin1 (b : BackupBundle)
    (hv : ∀ c ∈ b.version.data, c.toNat < 256)
    (hk : ∀ c ∈ b.keyData.data, c.toNat < 256)
    (hmv : ∀ c ∈ b.metadata.version.data, c.toNat < 256)
    (hma : ∀ c ∈ b.metadata.algorithm.data, c.toNat < 256)
    (hmu : ∀ c ∈ b.metadata.userId.data, c.toNat < 256) :
    ∀ c ∈ backupChars b, c.toNat < 256 := by
  intro c hc
  simp only [backupChars, List.mem_append] at hc
  rcases hc with ((((((((hc | hc) | hc) | hc) | hc) | hc) | hc) | hc)) | hc
  · revert hc
    have hh : ∀ c ∈ ("\x7b\"version\":\"").data, c.toNat < 256 := by decide
    exact hh c
  · exact escStr_latin1 b.version hv c hc
  · revert hc
    have hh : ∀ c ∈ ("\",\"keyData\":\"").data, c.toNat < 256 := by decide
    exact hh c
  · exact escStr_latin1 b.keyData hk c hc
  · revert hc
    have hh : ∀ c ∈ ("\",\"metadata\":").data, c.toNat < 256 := by decide
    exact hh c
  · exact metaChars_latin1 b.metadata hmv hma hmu c hc
  · revert hc
    have hh : ∀ c ∈ (",\"exportedAt\":").data, c.toNat < 256 := by decide
    exact hh c
  · exact natDigits_latin1 b.exportedAt c hc
  · revert hc
    have hh : ∀ c ∈ ("\x7d").data, c.toNat < 256 := by decide
    exact hh c

/-- Helper: binary round trip under matching key and iv. -/
theorem decryptFile_encryptFile (b : List Nat) (key ivBytes : List Nat)
    (hiv : ∀ x ∈ ivBytes, x < 256) :
    decryptFile (encryptFile b key ivBytes).encryptedBlob
      (encryptFile b key ivBytes).iv key = Except.ok b := by
  simp only [encryptFile, decryptFile]
  rw [base64ToArrayBuffer_roundtrip _ hiv]
  simp [gcmMask_invol]

theorem encryptText_tag (s : String) (key rb : List Nat) :
    (encryptText s key rb).ciphertext.tag
      = ⟨key, rb, gcmMask key rb 0 (utf8Encode s.data)⟩ := rfl

theorem encryptText_iv (s : String) (key rb : List Nat) :
    (encryptText s key rb).iv = arrayBufferToBase64 rb := rfl

theorem encryptFile_tag (b : List Nat) (key rb : List Nat) :
    (encryptFile b key rb).encryptedBlob.tag
      = ⟨key, rb, gcmMask key rb 0 b⟩ := rfl

theorem encryptFile_iv (b : List Nat) (key rb : List Nat) :
    (encryptFile b key rb).iv = arrayBufferToBase64 rb := rfl

theorem arrayBufferToBase64_inj {b1 b2 : List Nat}
    (h1 : ∀ x ∈ b1, x < 256) (h2 : ∀ x ∈ b2, x < 256)
    (h : arrayBufferToBase64 b1 = arrayBufferToBase64 b2) : b1 = b2 := by
  have e1 := base64ToArrayBuffer_roundtrip b1 h1
  have e2 := base64ToArrayBuffer_roundtrip b2 h2
  rw [h, e2] at e1
  exact ((Option.some.injEq _ _).mp e1).symm

/-! ## Claim theorems. -/

/-- C1: for every valid 256-bit key k and every string s (including the empty
string, multi-byte Unicode, and long strings), decrypting the result of
encryptText(s, k) with the same key k returns exactly s.  The iv bytes are
the fresh 12-byte draw crypto.getRandomValues returned inside encryptText. -/
theorem c1_text_roundtrip (key : List Nat) (s : String) (ivBytes : List Nat)
    (hkeylen : key.length = 32) (hkey : ∀ b ∈ key, b < 256)
    (hivlen : ivBytes.length = 12) (hiv : ∀ b ∈ ivBytes, b < 256) :
    decryptText (encryptText s key ivBytes) key = Except.ok s :=
  decryptText_encryptText s key ivBytes hiv

theorem c1_text_roundtrip_witness :
    decryptText (encryptText "hej 🌍 ✓" (List.range 32) (List.range 12)) (List.range 32)
      = Except.ok "hej 🌍 ✓" :=
  c1_text_roundtrip (List.range 32) "hej 🌍 ✓" (List.range 12)
    (by decide) (by decide) (by decide) (by decide)

/-- C2: for every valid key and byte buffer b (including the zero-length
buffer), decryptFile applied to the output of encryptFile(b, k) with the
matching iv and key returns exactly b, and the ciphertext buffer is
b.length + 16 bytes long (the fixed GCM authentication-tag overhead). -/
theorem c2_binary_roundtrip (key : List Nat) (b : List Nat) (ivBytes : List Nat)
    (hkeylen : key.length = 32) (hkey : ∀ x ∈ key, x < 256)
    (hb : ∀ x ∈ b, x < 256)
    (hivlen : ivBytes.length = 12) (hiv : ∀ x ∈ ivBytes, x < 256) :
    decryptFile (encryptFile b key ivBytes).encryptedBlob
      (encryptFile b key ivBytes).iv key = Except.ok b ∧
    (encryptFile b key ivBytes).encryptedBlob.byteLength = b.length + 16 := by
  refine ⟨decryptFile_encryptFile b key ivBytes hiv, ?_⟩
  simp only [encryptFile, GcmBuffer.byteLength, TAG_BYTES]
  rw [gcmMask_length]

theorem c2_binary_roundtrip_witness :
    decryptFile (encryptFile [] (List.range 32) (List.range 12)).encryptedBlob
      (encryptFile [] (List.range 32) (List.range 12)).iv (List.range 32)
      = Except.ok [] ∧
    (encryptFile [] (List.range 32) (List.range 12)).encryptedBlob.byteLength = 16 :=
  c2_binary_roundtrip (List.range 32) [] (List.range 12)
    (by decide) (by decide) (by decide) (by decide) (by decide)

/-- C4: in both encryptText and encryptFile, the iv stored in the result is
exactly the fresh random draw of that call, independent of the plaintext or
file bytes, of the key, and of which of the two operations drew it (first
three conjuncts); so when the secure RNG returns pairwise distinct draws for
10 encryptions under the same key — which is what drawing each nonce freshly
from a cryptographically secure source provides — the payloads carry
pairwise distinct iv values, whether the two encryptions are both text, both
binary, or one of each (conjuncts four to six): no nonce is reused across
any two of the encryptions; and the 10 text ciphertexts and the 10 binary
ciphertext blobs are each pairwise distinct as well (last two conjuncts). -/
theorem c4_nonce_uniqueness (key : List Nat) (s : String) (b : List Nat)
    (r : Fin 10 → List Nat)
    (hlen : ∀ i, (r i).length = 12) (hbound : ∀ i, ∀ x ∈ r i, x < 256)
    (hdist : ∀ i j, i ≠ j → r i ≠ r j) :
    (∀ (s' : String) (key' : List Nat) (i : Fin 10),
      (encryptText s key (r i)).iv = (encryptText s' key' (r i)).iv) ∧
    (∀ (b' key' : List Nat) (i : Fin 10),
      (encryptFile b key (r i)).iv = (encryptFile b' key' (r i)).iv) ∧
    (∀ (s' : String) (b' key' key'' : List Nat) (i : Fin 10),
      (encryptText s' key' (r i)).iv = (encryptFile b' key'' (r i)).iv) ∧
    (∀ i j, i ≠ j → (encryptText s key (r i)).iv ≠ (encryptText s key (r j)).iv) ∧
    (∀ i j, i ≠ j → (encryptFile b key (r i)).iv ≠ (encryptFile b key (r j)).iv) ∧
    (∀ i j, i ≠ j → (encryptText s key (r i)).iv ≠ (encryptFile b key (r j)).iv) ∧
    (∀ i j, i ≠ j →
      (encryptText s key (r i)).ciphertext ≠ (encryptText s key (r j)).ciphertext) ∧
    (∀ i j, i ≠ j →
      (encryptFile b key (r i)).encryptedBlob
        ≠ (encryptFile b key (r j)).encryptedBlob) := by
  refine ⟨fun s' key' i => rfl, fun b' key' i => rfl, fun s' b' key' key'' i => rfl,
    ?_, ?_, ?_, ?_, ?_⟩
  · intro i j hij heq
    rw [encryptText_iv, encryptText_iv] at heq
    exact hdist i j hij (arrayBufferToBase64_inj (hbound i) (hbound j) heq)
  · intro i j hij heq
    rw [encryptFile_iv, encryptFile_iv] at heq
    exact hdist i j hij (arrayBufferToBase64_inj (hbound i) (hbound j) heq)
  · intro i j hij heq
    rw [encryptText_iv, encryptFile_iv] at heq
    exact hdist i j hij (arrayBufferToBase64_inj (hbound i) (hbound j) heq)
  · intro i j hij heq
    have htag := congrArg CiphertextB64.tag heq
    rw [encryptText_tag, encryptText_tag] at htag
    exact hdist i j hij (congrArg GcmTag.iv htag)
  · intro i j hij heq
    have htag := congrArg GcmBuffer.tag heq
    rw [encryptFile_tag, encryptFile_tag] at htag
    exact hdist i j hij (congrArg GcmTag.iv htag)

/-- C3 (amended): decryptText succeeds exactly on payloads whose ciphertext
and iv strings forgiving-base64-decode to the genuine encryption under the
presented key (first conjunct); decrypting under any key other than the
encryption key always fails (second conjunct); any modification of the
ciphertext string that changes its decoded bytes — every byte-level bit flip
or byte append, and every decode-breaking string edit — is rejected (third
conjunct); but a string modification that decodes to the same bytes, such as
an appended whitespace byte or a flipped padding-overhang bit, is accepted
and decrypts to the original plaintext (fourth conjunct). -/
theorem c3_decrypt_error_characterization :
    (∀ (key : List Nat) (p : EncryptedData),
      (∃ s, decryptText p key = Except.ok s) ↔
        (∃ body ivB, base64ToArrayBuffer p.ciphertext.data = some body ∧
          base64ToArrayBuffer p.iv = some ivB ∧
          p.ciphertext.tag = ⟨key, ivB, body⟩)) ∧
    (∀ (keyA keyB : List Nat) (s : String) (ivBytes : List Nat),
      (∀ b ∈ ivBytes, b < 256) → keyA ≠ keyB →
      decryptText (encryptText s keyA ivBytes) keyB = Except.error decryptTextError) ∧
    (∀ (key : List Nat) (s : String) (ivBytes : List Nat) (ct' : String),
      (∀ b ∈ ivBytes, b < 256) →
      base64ToArrayBuffer ct'
        ≠ base64ToArrayBuffer (encryptText s key ivBytes).ciphertext.data →
      decryptText { encryptText s key ivBytes with
        ciphertext := ⟨ct', (encryptText s key ivBytes).ciphertext.tag⟩ } key
        = Except.error decryptTextError) ∧
    (∀ (key : List Nat) (s : String) (ivBytes : List Nat) (ct' : String),
      (∀ b ∈ ivBytes, b < 256) →
      base64ToArrayBuffer ct'
        = base64ToArrayBuffer (encryptText s key ivBytes).ciphertext.data →
      decryptText { encryptText s key ivBytes with
        ciphertext := ⟨ct', (encryptText s key ivBytes).ciphertext.tag⟩ } key
        = Except.ok s) := by
  have hgen : ∀ (key : List Nat) (s : String) (ivBytes : List Nat),
      base64ToArrayBuffer (encryptText s key ivBytes).ciphertext.data
        = some (gcmMask key ivBytes 0 (utf8Encode s.data)) := by
    intro key s ivBytes
    exact base64ToArrayBuffer_roundtrip _
      (gcmMask_lt key ivBytes 0 _ (utf8Encode_lt s.data))
  refine ⟨?_, ?_, ?_, ?_⟩
  · intro key p
    constructor
    · rintro ⟨s, hs⟩
      cases hb : base64ToArrayBuffer p.ciphertext.data with
      | none =>
        simp only [decryptText, hb] at hs
        exact Except.noConfusion hs
      | some body =>
        cases hiv : base64ToArrayBuffer p.iv with
        | none =>
          simp only [decryptText, hb, hiv] at hs
          exact Except.noConfusion hs
        | some ivB =>
          simp only [decryptText, hb, hiv] at hs
          split at hs
          · next htag => exact ⟨body, ivB, rfl, rfl, htag⟩
          · exact Except.noConfusion hs
    · rintro ⟨body, ivB, hb, hiv, htag⟩
      refine ⟨String.mk (utf8Decode (gcmMask key ivB 0 body)), ?_⟩
      simp only [decryptText, hb, hiv, if_pos htag]
  · intro A B s rb hrb hAB
    simp only [decryptText, encryptText_iv, hgen A s rb,
      base64ToArrayBuffer_roundtrip rb hrb, encryptText_tag]
    rw [if_neg]
    intro h
    injection h with h1 _ _
    exact hAB h1
  · intro key s rb ct' hrb hne
    cases hct : base64ToArrayBuffer ct' with
    | none => simp only [decryptText, hct]
    | some body' =>
      have hbody' : body' ≠ gcmMask key rb 0 (utf8Encode s.data) := by
        intro hh
        rw [hct, hgen key s rb, hh] at hne
        exact hne rfl
      simp only [decryptText, encryptText_iv, hct,
        base64ToArrayBuffer_roundtrip rb hrb, encryptText_tag]
      rw [if_neg]
      intro h
      injection h with _ _ h3
      exact hbody' h3.symm
  · intro key s rb ct' hrb heq
    rw [hgen key s rb] at heq
    simp only [decryptText, encryptText_iv, heq,
      base64ToArrayBuffer_roundtrip rb hrb, encryptText_tag, if_pos rfl,
      gcmMask_invol, utf8Decode_utf8Encode]
    simp

set_option maxRecDepth 4000 in
theorem c3_decrypt_error_characterization_witness :
    decryptText (encryptText "a" (List.range 32) (List.range 12)) (0 :: List.range 32)
      = Except.error decryptTextError ∧
    decryptText { encryptText "a" (List.range 32) (List.range 12) with
      ciphertext := ⟨"QUJD", (encryptText "a" (List.range 32) (List.range 12)).ciphertext.tag⟩ }
      (List.range 32) = Except.error decryptTextError := by
  have h := c3_decrypt_error_characterization
  refine ⟨h.2.1 (List.range 32) (0 :: List.range 32) "a" (List.range 12)
    (by decide) (by decide), ?_⟩
  exact h.2.2.1 (List.range 32) "a" (List.range 12) "QUJD" (by decide) (by decide)

set_option maxRecDepth 4000 in
/-- C3 counterexample: the claim as stated is false on the code.  Appending a
space byte to the base64 ciphertext of a valid payload is a modification of
the ciphertext, yet decryptText succeeds with the correct key and returns the
original plaintext, because the platform atob performs forgiving-base64
decoding and strips ASCII whitespace before decoding, so the tampered string
decodes to the same ciphertext bytes and GCM authentication passes. -/
theorem c3_counterexample :
    (encryptText "hi" (List.range 32) (List.range 12)).ciphertext.data ++ " "
      ≠ (encryptText "hi" (List.range 32) (List.range 12)).ciphertext.data ∧
    decryptText
      ⟨⟨(encryptText "hi" (List.range 32) (List.range 12)).ciphertext.data ++ " ",
          (encryptText "hi" (List.range 32) (List.range 12)).ciphertext.tag⟩,
        (encryptText "hi" (List.range 32) (List.range 12)).iv,
        (encryptText "hi" (List.range 32) (List.range 12)).algorithm⟩
      (List.range 32) = Except.ok "hi" := by
  constructor
  · decide
  · rfl

theorem c4_nonce_uniqueness_witness :
    (encryptText "x" (List.range 32) ((fun i : Fin 10 => i.val :: List.range 11) 0)).iv
      ≠ (encryptText "x" (List.range 32) ((fun i : Fin 10 => i.val :: List.range 11) 1)).iv ∧
    (encryptFile [1, 2] (List.range 32) ((fun i : Fin 10 => i.val :: List.range 11) 0)).iv
      ≠ (encryptFile [1, 2] (List.range 32) ((fun i : Fin 10 => i.val :: List.range 11) 1)).iv ∧
    (encryptText "x" (List.range 32) ((fun i : Fin 10 => i.val :: List.range 11) 0)).iv
      ≠ (encryptFile [1, 2] (List.range 32) ((fun i : Fin 10 => i.val :: List.range 11) 1)).iv ∧
    (encryptText "x" (List.range 32) ((fun i : Fin 10 => i.val :: List.range 11) 0)).ciphertext
      ≠ (encryptText "x" (List.range 32) ((fun i : Fin 10 => i.val :: List.range 11) 1)).ciphertext ∧
    (encryptFile [1, 2] (List.range 32) ((fun i : Fin 10 => i.val :: List.range 11) 0)).encryptedBlob
      ≠ (encryptFile [1, 2] (List.range 32) ((fun i : Fin 10 => i.val :: List.range 11) 1)).encryptedBlob := by
  have h := c4_nonce_uniqueness (List.range 32) "x" [1, 2]
    (fun i : Fin 10 => i.val :: List.range 11) (by decide) (by decide) (by decide)
  exact ⟨h.2.2.2.1 0 1 (by decide), h.2.2.2.2.1 0 1 (by decide),
    h.2.2.2.2.2.1 0 1 (by decide), h.2.2.2.2.2.2.1 0 1 (by decide),
    h.2.2.2.2.2.2.2 0 1 (by decide)⟩

/-- C7: importKeyFromBackup with a backup string that cannot be decoded, or
that does not decode to a well-formed bundle (which covers a bundle missing
its keyData or metadata field), raises the import error and leaves the whole
store — in particular both of the user's slots — exactly as it was. -/
theorem c7_corrupted_backup (userId backupData : String) (st : Store)
    (h : atobStr backupData = none ∨
      ∃ js, atobStr backupData = some js ∧ parseBackup js = none) :
    importKeyFromBackup userId backupData st = (Except.error importBackupError, st) ∧
    (importKeyFromBackup userId backupData st).2.getItem (keySlot userId)
      = st.getItem (keySlot userId) ∧
    (importKeyFromBackup userId backupData st).2.getItem (metaSlot userId)
      = st.getItem (metaSlot userId) := by
  have hmain : importKeyFromBackup userId backupData st
      = (Except.error importBackupError, st) := by
    unfold importKeyFromBackup
    rcases h with h | ⟨js, h1, h2⟩
    · rw [h]
    · simp only [h1, h2]
  exact ⟨hmain, by rw [hmain], by rw [hmain]⟩

/-- Concrete store holding a key record for user u2. -/
def storeU2 : Store := fun k =>
  if k = keySlot "u2" then some (arrayBufferToBase64 (List.range 32))
  else if k = metaSlot "u2" then some (stringifyMetadata ⟨"1.0", 0, "AES-256-GCM", "u2"⟩)
  else none

theorem c7_corrupted_backup_witness :
    importKeyFromBackup "u2" "not-a-valid-bundle" storeU2
      = (Except.error importBackupError, storeU2) ∧
    (importKeyFromBackup "u2" "not-a-valid-bundle" storeU2).2.getItem (keySlot "u2")
      = storeU2.getItem (keySlot "u2") ∧
    (importKeyFromBackup "u2" "not-a-valid-bundle" storeU2).2.getItem (metaSlot "u2")
      = storeU2.getItem (metaSlot "u2") :=
  c7_corrupted_backup "u2" "not-a-valid-bundle" storeU2 (Or.inl rfl)

/-- C8 (amended): getStoredKey returns null when either slot is missing, and
also — diverging from the claim as stated — when a slot is present but holds
the empty string, which the source's JavaScript truthiness check treats as
missing; with both slots present and non-empty it raises the retrieval error
(never null) on unparsable metadata or failing key import, and returns the
record otherwise. -/
theorem c8_getKey_absent_vs_corrupt :
    ∀ (userId : String) (st : Store),
      ((st.getItem (keySlot userId) = none ∨ st.getItem (metaSlot userId) = none) →
        getStoredKey userId st = Except.ok none) ∧
      (∀ kd ms, st.getItem (keySlot userId) = some kd →
        st.getItem (metaSlot userId) = some ms →
        ((kd = "" ∨ ms = "") → getStoredKey userId st = Except.ok none) ∧
        (kd ≠ "" → ms ≠ "" → parseMetadata ms = none →
          getStoredKey userId st = Except.error getStoredKeyError) ∧
        (∀ md, kd ≠ "" → ms ≠ "" → parseMetadata ms = some md →
          importEncryptionKey kd = Except.error importKeyError →
          getStoredKey userId st = Except.error getStoredKeyError) ∧
        (∀ md k, kd ≠ "" → ms ≠ "" → parseMetadata ms = some md →
          importEncryptionKey kd = Except.ok k →
          getStoredKey userId st = Except.ok (some ⟨k, md⟩))) := by
  intro userId st
  constructor
  · intro h
    cases h1 : st.getItem (keySlot userId) with
    | none => cases h2 : st.getItem (metaSlot userId) <;> simp [getStoredKey, h1, h2]
    | some kd =>
      cases h2 : st.getItem (metaSlot userId) with
      | none => simp [getStoredKey, h1, h2]
      | some ms => simp_all
  · intro kd ms h1 h2
    refine ⟨?_, ?_, ?_, ?_⟩
    · intro he
      simp only [getStoredKey, h1, h2]
      rw [if_pos he]
    · intro hk hm hp
      simp only [getStoredKey, h1, h2]
      rw [if_neg (not_or.mpr ⟨hk, hm⟩), hp]
    · intro md hk hm hp him
      simp only [getStoredKey, h1, h2]
      rw [if_neg (not_or.mpr ⟨hk, hm⟩), hp, him]
    · intro md k hk hm hp him
      simp only [getStoredKey, h1, h2]
      rw [if_neg (not_or.mpr ⟨hk, hm⟩), hp, him]

theorem c8_getKey_absent_vs_corrupt_witness :
    getStoredKey "u2" storeU2
      = Except.ok (some ⟨List.range 32, ⟨"1.0", 0, "AES-256-GCM", "u2"⟩⟩) := by
  have h := (c8_getKey_absent_vs_corrupt "u2" storeU2).2
    (arrayBufferToBase64 (List.range 32))
    (stringifyMetadata ⟨"1.0", 0, "AES-256-GCM", "u2"⟩) rfl rfl
  exact h.2.2.2 ⟨"1.0", 0, "AES-256-GCM", "u2"⟩ (List.range 32)
    (by decide) (by decide)
    (parseMetadata_stringifyMetadata ⟨"1.0", 0, "AES-256-GCM", "u2"⟩)
    (importEncryptionKey_b64 (List.range 32) (by decide) (by decide))

/-- Concrete store whose metadata slot for u1 holds the empty string while
the key slot holds a valid key. -/
def storeEmptyMeta : Store := fun k =>
  if k = keySlot "u1" then some (arrayBufferToBase64 (List.range 32))
  else if k = metaSlot "u1" then some "" else none

/-- C8 counterexample: the claim as stated is false on the code.  Both slots
are present (the metadata slot holds the empty string, which is present but
does not parse as JSON), so the claim requires KeyStoreCorruptionError; the
source's falsy-string check instead silently returns null. -/
theorem c8_counterexample :
    storeEmptyMeta.getItem (keySlot "u1") = some (arrayBufferToBase64 (List.range 32)) ∧
    storeEmptyMeta.getItem (metaSlot "u1") = some "" ∧
    parseMetadata "" = none ∧
    getStoredKey "u1" storeEmptyMeta = Except.ok none := by
  refine ⟨rfl, rfl, rfl, rfl⟩

/-- C9: getKeyMetadata is total — by its result type it returns a value and
never raises — and (a) its result depends only on the metadata slot, never on
the key-bytes slot and never on key import; (b) a missing slot yields null;
(c) a present but unparsable (or falsy) slot also yields null; (d) every call
returns either null or a metadata value. -/
theorem c9_getMetadata_total :
    (∀ (userId : String) (st st' : Store),
      st.getItem (metaSlot userId) = st'.getItem (metaSlot userId) →
      getKeyMetadata userId st = getKeyMetadata userId st') ∧
    (∀ (userId : String) (st : Store),
      st.getItem (metaSlot userId) = none → getKeyMetadata userId st = none) ∧
    (∀ (userId : String) (st : Store) (ms : String),
      st.getItem (metaSlot userId) = some ms → parseMetadata ms = none →
      getKeyMetadata userId st = none) ∧
    (∀ (userId : String) (st : Store),
      getKeyMetadata userId st = none ∨
        ∃ md, getKeyMetadata userId st = some md) := by
  refine ⟨?_, ?_, ?_, ?_⟩
  · intro userId st st' h
    unfold getKeyMetadata
    rw [show Store.getItem st (metaSlot userId)
        = Store.getItem st' (metaSlot userId) from h]
  · intro userId st h
    simp only [getKeyMetadata, h]
  · intro userId st ms h hp
    simp only [getKeyMetadata, h]
    by_cases he : ms = ""
    · rw [if_pos he]
    · rw [if_neg he, hp]
  · intro userId st
    cases hres : getKeyMetadata userId st with
    | none => exact Or.inl rfl
    | some md => exact Or.inr ⟨md, rfl⟩

theorem c9_getMetadata_total_witness :
    getKeyMetadata "u1" storeEmptyMeta = none ∧
    getKeyMetadata "u9" storeEmptyMeta = none := by
  have h := c9_getMetadata_total
  refine ⟨h.2.2.1 "u1" storeEmptyMeta "" rfl rfl, h.2.1 "u9" storeEmptyMeta rfl⟩

/-- C6: on a user with no stored key, getOrCreateKey creates and stores a new
key (hasStoredKey flips from false to true), and a second sequential call
returns the very same record — same metadata, in particular the same
createdAt — and the unchanged store, because existence is checked before
generation. -/
theorem c6_get_or_create_idempotent (userId : String) (st : Store)
    (rb rb2 : List Nat) (now1 now2 : Nat)
    (habsent : st.getItem (keySlot userId) = none)
    (hlen : rb.length = 32) (hbound : ∀ x ∈ rb, x < 256) :
    hasStoredKey userId st = false ∧
    ∃ r1 st1,
      getOrCreateKey userId rb now1 st = Except.ok (r1, st1) ∧
      hasStoredKey userId st1 = true ∧
      r1.metadata.createdAt = now1 ∧
      getOrCreateKey userId rb2 now2 st1 = Except.ok (r1, st1) := by
  have hfalse : hasStoredKey userId st = false := by
    simp [hasStoredKey, Store.getItem] at habsent ⊢
    simp [habsent]
  refine ⟨hfalse, ⟨rb, ⟨KEY_VERSION, now1, "AES-256-GCM", userId⟩⟩,
    (st.setItem (keySlot userId) (arrayBufferToBase64 rb)).setItem (metaSlot userId)
      (stringifyMetadata ⟨KEY_VERSION, now1, "AES-256-GCM", userId⟩),
    ?_, ?_, rfl, ?_⟩
  · have hget1 : getStoredKey userId st = Except.ok none := by
      cases h2 : st.getItem (metaSlot userId) <;> simp [getStoredKey, habsent, h2]
    unfold getOrCreateKey
    rw [hget1]
    rfl
  · have hkey1 : ((st.setItem (keySlot userId) (arrayBufferToBase64 rb)).setItem
        (metaSlot userId)
        (stringifyMetadata ⟨KEY_VERSION, now1, "AES-256-GCM", userId⟩)).getItem
        (keySlot userId) = some (arrayBufferToBase64 rb) := by
      rw [Store.getItem_setItem_ne _ _ _ _ (keySlot_ne_metaSlot userId userId)]
      exact Store.getItem_setItem_self st _ _
    simp [hasStoredKey, hkey1]
  · have hkey1 : ((st.setItem (keySlot userId) (arrayBufferToBase64 rb)).setItem
        (metaSlot userId)
        (stringifyMetadata ⟨KEY_VERSION, now1, "AES-256-GCM", userId⟩)).getItem
        (keySlot userId) = some (arrayBufferToBase64 rb) := by
      rw [Store.getItem_setItem_ne _ _ _ _ (keySlot_ne_metaSlot userId userId)]
      exact Store.getItem_setItem_self st _ _
    have hmeta1 : ((st.setItem (keySlot userId) (arrayBufferToBase64 rb)).setItem
        (metaSlot userId)
        (stringifyMetadata ⟨KEY_VERSION, now1, "AES-256-GCM", userId⟩)).getItem
        (metaSlot userId)
        = some (stringifyMetadata ⟨KEY_VERSION, now1, "AES-256-GCM", userId⟩) :=
      Store.getItem_setItem_self _ _ _
    have hkd_ne : arrayBufferToBase64 rb ≠ "" := by
      apply arrayBufferToBase64_ne_empty
      intro hnil
      rw [hnil] at hlen
      simp at hlen
    have hsecond_get : getStoredKey userId
        ((st.setItem (keySlot userId) (arrayBufferToBase64 rb)).setItem
          (metaSlot userId)
          (stringifyMetadata ⟨KEY_VERSION, now1, "AES-256-GCM", userId⟩))
        = Except.ok (some ⟨rb, ⟨KEY_VERSION, now1, "AES-256-GCM", userId⟩⟩) := by
      simp only [getStoredKey, hkey1, hmeta1]
      rw [if_neg (not_or.mpr ⟨hkd_ne, stringifyMetadata_ne_empty _⟩)]
      rw [parseMetadata_stringifyMetadata]
      rw [importEncryptionKey_b64 rb hbound (Or.inr (Or.inr hlen))]
    unfold getOrCreateKey
    rw [hsecond_get]

/-- Witness for C6 at a concrete fresh user on the empty store. -/
theorem c6_get_or_create_idempotent_witness :
    hasStoredKey "u1" Store.empty = false ∧
    ∃ r1 st1,
      getOrCreateKey "u1" (List.range 32) 41 Store.empty = Except.ok (r1, st1) ∧
      hasStoredKey "u1" st1 = true ∧
      r1.metadata.createdAt = 41 ∧
      getOrCreateKey "u1" (List.range 32) 99 st1 = Except.ok (r1, st1) :=
  c6_get_or_create_idempotent "u1" Store.empty (List.range 32) (List.range 32) 41 99
    rfl (by decide) (by decide)

/-- C10: for a user who already has a stored record, importing any
well-formed backup string (decodable, parsable, with importable key bytes)
succeeds without error or confirmation and unconditionally overwrites both
slots with the backup's key bytes and the rewritten metadata, discarding the
previously stored values. -/
theorem c10_import_overwrites (userId backupData js : String)
    (bundle : BackupBundle) (kb : List Nat) (st : Store) (oldK oldM : String)
    (hdec : atobStr backupData = some js) (hp : parseBackup js = some bundle)
    (hkd : ¬ bundle.keyData = "") (him : importEncryptionKey bundle.keyData = Except.ok kb)
    (hold1 : st.getItem (keySlot userId) = some oldK)
    (hold2 : st.getItem (metaSlot userId) = some oldM) :
    (importKeyFromBackup userId backupData st).1
      = Except.ok ⟨kb, { bundle.metadata with userId := userId }⟩ ∧
    (importKeyFromBackup userId backupData st).2.getItem (keySlot userId)
      = some bundle.keyData ∧
    (importKeyFromBackup userId backupData st).2.getItem (metaSlot userId)
      = some (stringifyMetadata { bundle.metadata with userId := userId }) := by
  have hmain : importKeyFromBackup userId backupData st
      = (Except.ok ⟨kb, { bundle.metadata with userId := userId }⟩,
        (st.setItem (keySlot userId) bundle.keyData).setItem (metaSlot userId)
          (stringifyMetadata { bundle.metadata with userId := userId })) := by
    unfold importKeyFromBackup
    simp only [hdec, hp]
    rw [if_neg hkd, him]
  rw [hmain]
  refine ⟨rfl, ?_, Store.getItem_setItem_self _ _ _⟩
  rw [Store.getItem_setItem_ne _ _ _ _ (keySlot_ne_metaSlot userId userId)]
  exact Store.getItem_setItem_self st _ _

theorem c10_import_overwrites_witness :
    (importKeyFromBackup "u2"
        (String.mk (b64encodeNums ((stringifyBackup
          ⟨"1.0", arrayBufferToBase64 (List.range 32),
            ⟨"1.0", 3, "AES-256-GCM", "old"⟩, 7⟩).data.map Char.toNat)))
        storeU2).1
      = Except.ok ⟨List.range 32, ⟨"1.0", 3, "AES-256-GCM", "u2"⟩⟩ ∧
    (importKeyFromBackup "u2"
        (String.mk (b64encodeNums ((stringifyBackup
          ⟨"1.0", arrayBufferToBase64 (List.range 32),
            ⟨"1.0", 3, "AES-256-GCM", "old"⟩, 7⟩).data.map Char.toNat)))
        storeU2).2.getItem (keySlot "u2")
      = some (arrayBufferToBase64 (List.range 32)) ∧
    (importKeyFromBackup "u2"
        (String.mk (b64encodeNums ((stringifyBackup
          ⟨"1.0", arrayBufferToBase64 (List.range 32),
            ⟨"1.0", 3, "AES-256-GCM", "old"⟩, 7⟩).data.map Char.toNat)))
        storeU2).2.getItem (metaSlot "u2")
      = some (stringifyMetadata ⟨"1.0", 3, "AES-256-GCM", "u2"⟩) := by
  have hlatin : ∀ c ∈ (stringifyBackup
      ⟨"1.0", arrayBufferToBase64 (List.range 32),
        ⟨"1.0", 3, "AES-256-GCM", "old"⟩, 7⟩).data, c.toNat < 256 := by
    apply backupChars_latin1 <;> intro c hc
    · revert hc
      have hh : ∀ c ∈ ("1.0").data, c.toNat < 256 := by decide
      exact hh c
    · exact b64encodeNums_latin1 _ c hc
    · revert hc
      have hh : ∀ c ∈ ("1.0").data, c.toNat < 256 := by decide
      exact hh c
    · revert hc
      have hh : ∀ c ∈ ("AES-256-GCM").data, c.toNat < 256 := by decide
      exact hh c
    · revert hc
      have hh : ∀ c ∈ ("old").data, c.toNat < 256 := by decide
      exact hh c
  have hrt := atobStr_btoaStr (stringifyBackup
    ⟨"1.0", arrayBufferToBase64 (List.range 32),
      ⟨"1.0", 3, "AES-256-GCM", "old"⟩, 7⟩) hlatin
  exact c10_import_overwrites "u2" _ _
    ⟨"1.0", arrayBufferToBase64 (List.range 32), ⟨"1.0", 3, "AES-256-GCM", "old"⟩, 7⟩
    (List.range 32) storeU2 _ _
    hrt.2
    (parseBackup_stringifyBackup _)
    (by
      intro hh
      exact arrayBufferToBase64_ne_empty (List.range 32) (by decide) hh)
    (importEncryptionKey_b64 (List.range 32) (by decide) (by decide))
    rfl rfl

/-- C5 (amended): export-then-delete-then-import restores a key that decrypts
everything encrypted under the original key, and the restored metadata's
userId equals the import-time argument even when it differs from the
export-time owner — provided the stored record's serialized characters are
all Latin-1 (at most U+00FF): the platform btoa used by exportKeyForBackup
throws on any character above U+00FF in the bundle JSON, so records whose
userId (or other metadata string) contains a higher code point cannot be
exported at all. -/
theorem c5_backup_restore (userId uid2 : String) (kb : List Nat) (m : KeyMetadata)
    (now : Nat) (st : Store)
    (h1 : st.getItem (keySlot userId) = some (arrayBufferToBase64 kb))
    (h2 : st.getItem (metaSlot userId) = some (stringifyMetadata m))
    (hlen : kb.length = 32) (hbound : ∀ x ∈ kb, x < 256)
    (hv : ∀ c ∈ m.version.data, c.toNat < 256)
    (ha : ∀ c ∈ m.algorithm.data, c.toNat < 256)
    (hu : ∀ c ∈ m.userId.data, c.toNat < 256) :
    ∃ backupStr : String,
      exportKeyForBackup userId now st = Except.ok backupStr ∧
      (importKeyFromBackup uid2 backupStr (deleteKey userId st)).1
        = Except.ok ⟨kb, { m with userId := uid2 }⟩ ∧
      (∀ (s : String) (rb : List Nat), (∀ x ∈ rb, x < 256) →
        decryptText (encryptText s kb rb) kb = Except.ok s) := by
  have hkd_ne : arrayBufferToBase64 kb ≠ "" := by
    apply arrayBufferToBase64_ne_empty
    intro hnil
    rw [hnil] at hlen
    simp at hlen
  have hlatin : ∀ c ∈ (stringifyBackup
      ⟨m.version, arrayBufferToBase64 kb, m, now⟩).data, c.toNat < 256 := by
    apply backupChars_latin1
    · exact hv
    · exact fun c hc => b64encodeNums_latin1 _ c hc
    · exact hv
    · exact ha
    · exact hu
  have hbt := atobStr_btoaStr (stringifyBackup
    ⟨m.version, arrayBufferToBase64 kb, m, now⟩) hlatin
  refine ⟨String.mk (b64encodeNums ((stringifyBackup
    ⟨m.version, arrayBufferToBase64 kb, m, now⟩).data.map Char.toNat)), ?_, ?_, ?_⟩
  · unfold exportKeyForBackup
    simp only [h1, h2]
    rw [if_neg (not_or.mpr ⟨hkd_ne, stringifyMetadata_ne_empty m⟩)]
    simp only [parseMetadata_stringifyMetadata]
    rw [hbt.1]
  · unfold importKeyFromBackup
    simp only [hbt.2, parseBackup_stringifyBackup]
    rw [if_neg hkd_ne]
    simp only [importEncryptionKey_b64 kb hbound (Or.inr (Or.inr hlen))]
  · intro s rb hrb
    exact decryptText_encryptText s kb rb hrb

/-- Concrete store holding a key record for user alice. -/
def storeAlice : Store := fun k =>
  if k = keySlot "alice" then some (arrayBufferToBase64 (List.range 32))
  else if k = metaSlot "alice" then
    some (stringifyMetadata ⟨"1.0", 5, "AES-256-GCM", "alice"⟩)
  else none

theorem c5_backup_restore_witness :
    ∃ backupStr : String,
      exportKeyForBackup "alice" 6 storeAlice = Except.ok backupStr ∧
      (importKeyFromBackup "bob" backupStr (deleteKey "alice" storeAlice)).1
        = Except.ok ⟨List.range 32, ⟨"1.0", 5, "AES-256-GCM", "bob"⟩⟩ ∧
      (∀ (s : String) (rb : List Nat), (∀ x ∈ rb, x < 256) →
        decryptText (encryptText s (List.range 32) rb) (List.range 32)
          = Except.ok s) :=
  c5_backup_restore "alice" "bob" (List.range 32)
    ⟨"1.0", 5, "AES-256-GCM", "alice"⟩ 6 storeAlice rfl rfl
    (by decide) (by decide) (by decide) (by decide) (by decide)

/-- Concrete store holding a key record for a user whose id contains a
character above U+00FF. -/
def storeJa : Store := fun k =>
  if k = keySlot "日" then some (arrayBufferToBase64 (List.range 32))
  else if k = metaSlot "日" then
    some (stringifyMetadata ⟨"1.0", 0, "AES-256-GCM", "日"⟩)
  else none

set_option maxRecDepth 10000 in
/-- C5 counterexample: the claim as stated is false on the code.  User "日"
has a fully valid stored key record, yet exportKeyForBackup fails: the bundle
JSON contains the character U+65E5, and the platform btoa throws
InvalidCharacterError on any code point above U+00FF, which the source's
catch collapses into the export failure — so the export/delete/import
sequence cannot even begin for this user. -/
theorem c5_counterexample :
    storeJa.getItem (keySlot "日") = some (arrayBufferToBase64 (List.range 32)) ∧
    storeJa.getItem (metaSlot "日")
      = some (stringifyMetadata ⟨"1.0", 0, "AES-256-GCM", "日"⟩) ∧
    exportKeyForBackup "日" 0 storeJa = Except.error exportKeyError := by
  refine ⟨rfl, rfl, rfl⟩

end Reflections
